import Mathlib

/-!
A shallow embedding of the real-time chat application's message-consistency
core: the Convex schema rows, the membership/visibility gate, the direct
conversation find-or-create algorithm, the message list query (status,
seen-by, pagination), edits, group roles, typing status, and the
client-side upload queue validation.  Records and operations are translated
from `convex/messages.ts`, `convex/users.ts`, the conversations module, the
`blocks`/`privacy` helpers, and the client upload-queue processor.
Machine numbers (timestamps, sizes) are modelled as `Nat`; fallible
mutations and queries return `Except String`, carrying the exact error
message string the code throws.
-/

namespace Chat

/-- A `users` row (subset of fields the operations consult). -/
structure UserRow where
  id : Nat
  name : String
  email : Option String
deriving Repr, DecidableEq

/-- A `conversations` row. -/
structure ConversationRow where
  id : Nat
  isGroup : Bool
  name : Option String
  createdBy : Nat
  updatedAt : Nat
  lastMessageText : Option String
  lastMessageAt : Option Nat
deriving Repr, DecidableEq

/-- A `conversationMembers` row.  `role` and `lastReadAt` are optional in the
schema; `isDeleted` is optional there and coalesced to `false` everywhere it
is read, so it is modelled as a plain `Bool`. -/
structure MemberRow where
  id : Nat
  conversationId : Nat
  userId : Nat
  joinedAt : Nat
  role : Option String
  lastReadAt : Option Nat
  isDeleted : Bool
deriving Repr, DecidableEq

/-- A `messages` row.  `deleted` is optional in the schema and coalesced to
`false` on read. -/
structure MessageRow where
  id : Nat
  conversationId : Nat
  senderId : Nat
  body : String
  replyToMessageId : Option Nat
  mediaType : Option String
  mediaStorageId : Option Nat
  createdAt : Nat
  deleted : Bool
deriving Repr, DecidableEq

/-- A `messageEdits` row. -/
structure MessageEditRow where
  id : Nat
  messageId : Nat
  editorId : Nat
  previousBody : String
  editedAt : Nat
deriving Repr, DecidableEq

/-- A `blocks` row: directed edge blocker to blocked. -/
structure BlockRow where
  id : Nat
  blockerId : Nat
  blockedId : Nat
  createdAt : Nat
deriving Repr, DecidableEq

/-- A `privacySettings` row. -/
structure PrivacyRow where
  userId : Nat
  readReceiptsEnabled : Bool
  lastSeenVisibility : String
  whoCanMessage : String
deriving Repr, DecidableEq

/-- A `typingStatus` row. -/
structure TypingRow where
  id : Nat
  conversationId : Nat
  userId : Nat
  updatedAt : Nat
deriving Repr, DecidableEq

/-- The database state: one list per table, in insertion (index) order,
plus a fresh-id counter standing in for the store's id allocator. -/
structure DB where
  users : List UserRow
  conversations : List ConversationRow
  members : List MemberRow
  messages : List MessageRow
  edits : List MessageEditRow
  blocks : List BlockRow
  privacy : List PrivacyRow
  typing : List TypingRow
  nextId : Nat
deriving Repr, DecidableEq

/-- Lookup of a conversation by id (`ctx.db.get`). -/
def getConv (db : DB) (cid : Nat) : Option ConversationRow :=
  db.conversations.find? (fun c => c.id == cid)

/-- Lookup of a user by id (`ctx.db.get`). -/
def getUser (db : DB) (uid : Nat) : Option UserRow :=
  db.users.find? (fun u => u.id == uid)

/-- Lookup of a message by id (`ctx.db.get`). -/
def getMsg (db : DB) (mid : Nat) : Option MessageRow :=
  db.messages.find? (fun m => m.id == mid)

/-- The `by_conversationId_userId` index followed by `.unique()`. -/
def memberByConvUser (db : DB) (cid uid : Nat) : Option MemberRow :=
  db.members.find? (fun m => m.conversationId == cid && m.userId == uid)

/-- The `by_conversationId` index followed by `.collect()`. -/
def membersOf (db : DB) (cid : Nat) : List MemberRow :=
  db.members.filter (fun m => m.conversationId == cid)

/-- The `by_userId` index on memberships followed by `.collect()`. -/
def membershipsOf (db : DB) (uid : Nat) : List MemberRow :=
  db.members.filter (fun m => m.userId == uid)

/-- The `by_messageId` index on `messageEdits` followed by `.collect()`. -/
def editsFor (db : DB) (mid : Nat) : List MessageEditRow :=
  db.edits.filter (fun e => e.messageId == mid)

/-- The `by_conversationId_userId` index on `typingStatus`, `.unique()`. -/
def typingByConvUser (db : DB) (cid uid : Nat) : Option TypingRow :=
  db.typing.find? (fun t => t.conversationId == cid && t.userId == uid)

/-- `getOrCreatePrivacySettings` from the privacy helper: the stored row,
or the defaults (read receipts on, everything visible) when none exists. -/
def getOrCreatePrivacySettings (db : DB) (uid : Nat) : PrivacyRow :=
  (db.privacy.find? (fun p => p.userId == uid)).getD
    { userId := uid, readReceiptsEnabled := true,
      lastSeenVisibility := "everyone", whoCanMessage := "everyone" }

/-- `isBlockedBetween` from the blocks helper: true when a directed block
edge exists in either direction between the two users. -/
def isBlockedBetween (db : DB) (a b : Nat) : Bool :=
  (db.blocks.any fun r => r.blockerId == a && r.blockedId == b) ||
  (db.blocks.any fun r => r.blockerId == b && r.blockedId == a)

/-- `canMessageUser` from the privacy helper. -/
def canMessageUser (db : DB) (senderId recipientId : Nat) : Bool :=
  !((getOrCreatePrivacySettings db senderId).whoCanMessage == "nobody") &&
  !((getOrCreatePrivacySettings db recipientId).whoCanMessage == "nobody")

/-- `String.prototype.trim`, written over the character sequence so that
concrete instances evaluate. -/
def strTrim (s : String) : String :=
  ⟨((s.data.dropWhile Char.isWhitespace).reverse.dropWhile Char.isWhitespace).reverse⟩

/-- `String.prototype.toLowerCase` (ASCII, which the code compares with). -/
def strToLower (s : String) : String := ⟨s.data.map Char.toLower⟩

/-- `String.prototype.slice(0, n)`. -/
def strTake (s : String) (n : Nat) : String := ⟨s.data.take n⟩

/-- `email.split("@")[0]`. -/
def emailLocalPart (s : String) : String := ⟨s.data.takeWhile (fun c => c ≠ '@')⟩

/-- `resolveUserDisplayName` from `convex/lib/displayName.ts`. -/
def resolveUserDisplayName (user : Option UserRow) : String :=
  match user with
  | none => "User"
  | some u =>
    let rawName := strTrim u.name
    if rawName ≠ "" && strToLower rawName ≠ "anonymous" then rawName
    else
      match u.email with
      | some e =>
        let p := strTrim (emailLocalPart e)
        if p ≠ "" then p else "User"
      | none => "User"

/-- Patch a membership row in place (Convex `ctx.db.patch`). -/
def patchMember (db : DB) (rowId : Nat) (f : MemberRow → MemberRow) : DB :=
  { db with members := db.members.map (fun m => if m.id == rowId then f m else m) }

/-- Patch a conversation row in place. -/
def patchConv (db : DB) (rowId : Nat) (f : ConversationRow → ConversationRow) : DB :=
  { db with conversations := db.conversations.map (fun c => if c.id == rowId then f c else c) }

/-- Patch a message row in place. -/
def patchMsg (db : DB) (rowId : Nat) (f : MessageRow → MessageRow) : DB :=
  { db with messages := db.messages.map (fun m => if m.id == rowId then f m else m) }

/-! ## Message view: status, seen-by, edit metadata (`messages.list` item mapper) -/

/-- An entry of a message's "seen by" list. -/
structure SeenEntry where
  userId : Nat
  name : String
deriving Repr, DecidableEq

/-- The fields of a `messages.list` item that the verification concerns:
delivery status, seen-by list, and edit metadata. -/
structure MessageItem where
  id : Nat
  body : String
  deleted : Bool
  createdAt : Nat
  editedAt : Option Nat
  editCount : Nat
  status : Option String
  seenBy : List SeenEntry
  isOwn : Bool
deriving Repr, DecidableEq

/-- The other non-deleted memberships of a message's conversation.  The list
query computes this same filter twice: once as the seen-by candidates and
once as `recipientMembers`. -/
def otherActiveMembers (db : DB) (message : MessageRow) : List MemberRow :=
  (membersOf db message.conversationId).filter
    (fun member => !member.isDeleted && member.userId != message.senderId)

/-- The per-member read-receipt test inside the seen-by mapper: the member's
privacy settings expose read receipts and `(lastReadAt ?? 0)` is not below
the message's `createdAt`. -/
def seenQualifies (db : DB) (message : MessageRow) (member : MemberRow) : Bool :=
  (getOrCreatePrivacySettings db member.userId).readReceiptsEnabled &&
  !(member.lastReadAt.getD 0 < message.createdAt)

/-- The item mapper of `messages.list` (status, seenBy, edit metadata),
for viewer `me` and one message row. -/
def messageView (db : DB) (me : Nat) (message : MessageRow) : MessageItem :=
  let edits := editsFor db message.id
  let others := otherActiveMembers db message
  let visibleSeenBy := (others.filter (seenQualifies db message)).map
    (fun member =>
      { userId := member.userId
        name := resolveUserDisplayName (getUser db member.userId) : SeenEntry })
  let isOwn := message.senderId == me
  let isDelivered := decide (others.length > 0)
  let status : Option String :=
    if !isOwn then none
    else if visibleSeenBy.length > 0 then some "read"
    else if isDelivered then some "delivered"
    else some "sent"
  { id := message.id
    body := message.body
    deleted := message.deleted
    createdAt := message.createdAt
    editedAt := (edits.getLast?).map (fun e => e.editedAt)
    editCount := edits.length
    status := status
    seenBy := visibleSeenBy
    isOwn := isOwn }

/-! ## Pagination core of `messages.list` -/

/-- Server-side clamp of the requested page size: `min(max(limit ?? 40, 1), 100)`. -/
def takeCountOf (limit : Option Nat) : Nat :=
  min (max (limit.getD 40) 1) 100

/-- Stable insertion of a message into a list ascending by `createdAt`. -/
def insertByCreatedAt (m : MessageRow) : List MessageRow → List MessageRow
  | [] => [m]
  | x :: xs =>
    if m.createdAt ≤ x.createdAt then m :: x :: xs else x :: insertByCreatedAt m xs

/-- Stable sort ascending by `createdAt` (ties keep insertion order), the
order of the `by_conversationId_createdAt` index. -/
def sortByCreatedAt (l : List MessageRow) : List MessageRow :=
  l.foldr insertByCreatedAt []

/-- The conversation's messages in index order (ascending `createdAt`). -/
def convMessagesAsc (db : DB) (cid : Nat) : List MessageRow :=
  sortByCreatedAt (db.messages.filter (fun m => m.conversationId == cid))

/-- The rows the page is drawn from: bounded by `createdAt <
beforeCreatedAt` when that argument is passed and truthy (the handler
tests `args.beforeCreatedAt ?`, so a zero bound is treated as absent). -/
def pageCandidates (db : DB) (cid : Nat) (beforeCreatedAt : Option Nat) : List MessageRow :=
  match beforeCreatedAt with
  | some b =>
    if b != 0 then (convMessagesAsc db cid).filter (fun m => m.createdAt < b)
    else convMessagesAsc db cid
  | none => convMessagesAsc db cid

/-- The pagination result of one `messages.list` call. -/
structure PageResult where
  page : List MessageRow
  oldestCreatedAt : Option Nat
  hasMore : Bool
deriving Repr, DecidableEq

/-- The pagination core of `messages.list`: take the newest `takeCount`
candidate rows (descending), re-reverse them into ascending order, report
the oldest returned timestamp, and probe for any conversation row strictly
older than it. -/
def listPage (db : DB) (cid : Nat) (beforeCreatedAt : Option Nat) (limit : Option Nat) :
    PageResult :=
  let takeCount := takeCountOf limit
  let candidates := pageCandidates db cid beforeCreatedAt
  let page := (candidates.reverse.take takeCount).reverse
  let oldest := (page.head?).map (fun m => m.createdAt)
  let hasMore :=
    match oldest with
    | some o => (convMessagesAsc db cid).any (fun m => m.createdAt < o)
    | none => false
  { page := page, oldestCreatedAt := oldest, hasMore := hasMore }

/-- The client's "load older" loop: request a page, and while `hasMore`,
request again passing the page's oldest timestamp as the exclusive upper
bound; older pages are prepended so the concatenation is ascending.
`fuel` bounds the number of requests. -/
def gatherPages (db : DB) (cid : Nat) (limit : Option Nat) :
    Nat → Option Nat → List MessageRow
  | 0, _ => []
  | fuel + 1, beforeCreatedAt =>
    let r := listPage db cid beforeCreatedAt limit
    if r.hasMore then gatherPages db cid limit fuel r.oldestCreatedAt ++ r.page
    else r.page

/-! ## The `messages.list` query with its access gate -/

/-- `messages.list`: membership gate, conversation lookup, direct-chat
block gate, then the page and its items. -/
def listQ (db : DB) (me : Nat) (cid : Nat) (beforeCreatedAt : Option Nat)
    (limit : Option Nat) : Except String (List MessageItem × Option Nat × Bool) :=
  match memberByConvUser db cid me with
  | none => .error "Not found"
  | some membership =>
    if membership.isDeleted then .error "Not found"
    else
      match getConv db cid with
      | none => .error "Not found"
      | some conversation =>
        let gate : Except String Unit :=
          if conversation.isGroup then .ok ()
          else
            match (membersOf db cid).find? (fun member => member.userId != me) with
            | none => .ok ()
            | some otherMember =>
              if isBlockedBetween db me otherMember.userId then .error "Not found"
              else .ok ()
        match gate with
        | .error e => .error e
        | .ok _ =>
          let r := listPage db cid beforeCreatedAt limit
          .ok (r.page.map (messageView db me), r.oldestCreatedAt, r.hasMore)

/-! ## Send pipeline -/

/-- The direct-conversation gate shared by `send` and `sendMedia`: find the
first member row whose user is not the caller (the code scans the raw,
unfiltered member list) and reject when blocked or when privacy settings
forbid messaging. -/
def directSendGate (db : DB) (me cid : Nat) (conversation : ConversationRow) :
    Except String Unit :=
  if conversation.isGroup then .ok ()
  else
    match (membersOf db cid).find? (fun member => member.userId != me) with
    | none => .ok ()
    | some otherMember =>
      if isBlockedBetween db me otherMember.userId then .error "Cannot send message"
      else if !canMessageUser db me otherMember.userId then
        .error "Messaging disabled by privacy settings"
      else .ok ()

/-- Un-hide every other member's soft-deleted membership of the
conversation (a new inbound message resurfaces a hidden conversation). -/
def unhideOtherMembers (db : DB) (me cid : Nat) : DB :=
  { db with
    members := db.members.map (fun m =>
      if m.conversationId == cid && m.userId != me && m.isDeleted then
        { m with isDeleted := false }
      else m) }

/-- Delete the caller's typing-status row for the conversation, if any. -/
def clearTyping (db : DB) (me cid : Nat) : DB :=
  { db with
    typing := db.typing.filter (fun t => !(t.conversationId == cid && t.userId == me)) }

/-- `messages.send`: the text-message mutation.  Returns the new message id. -/
def send (db : DB) (now : Nat) (me cid : Nat) (body : String)
    (replyToMessageId : Option Nat) : Except String (DB × Nat) :=
  match memberByConvUser db cid me with
  | none => .error "Not found"
  | some membership =>
    if membership.isDeleted then .error "Not found"
    else
      match getConv db cid with
      | none => .error "Not found"
      | some conversation =>
        match directSendGate db me cid conversation with
        | .error e => .error e
        | .ok _ =>
          let trimmed := strTrim body
          if trimmed == "" then .error "Message cannot be empty"
          else
            let snippetOrErr : Except String String :=
              match replyToMessageId with
              | none => .ok ""
              | some rid =>
                match getMsg db rid with
                | none => .error "Invalid reply target"
                | some replyTarget =>
                  if replyTarget.conversationId != cid then .error "Invalid reply target"
                  else if replyTarget.deleted then .ok "Reply"
                  else
                    let s := strTake (strTrim replyTarget.body) 30
                    .ok (if s == "" then "Reply" else s)
            match snippetOrErr with
            | .error e => .error e
            | .ok replySnippet =>
              let messageId := db.nextId
              let db1 : DB :=
                { db with
                  messages := db.messages ++
                    [{ id := messageId, conversationId := cid, senderId := me,
                       body := trimmed, replyToMessageId := replyToMessageId,
                       mediaType := none, mediaStorageId := none,
                       createdAt := now, deleted := false }]
                  nextId := db.nextId + 1 }
              let lastText :=
                match replyToMessageId with
                | some _ => "↩️ " ++ replySnippet ++ ": " ++ trimmed
                | none => trimmed
              let db2 := patchConv db1 cid (fun c =>
                { c with updatedAt := now, lastMessageText := some lastText,
                         lastMessageAt := some now })
              let db3 := patchMember db2 membership.id (fun m =>
                { m with lastReadAt := some now })
              let db4 := unhideOtherMembers db3 me cid
              .ok (clearTyping db4 me cid, messageId)

/-- `messages.sendMedia`: the media-message mutation. -/
def sendMedia (db : DB) (now : Nat) (me cid : Nat) (storageId : Nat)
    (mediaType : String) (caption : Option String)
    (replyToMessageId : Option Nat) : Except String DB :=
  match memberByConvUser db cid me with
  | none => .error "Not found"
  | some membership =>
    if membership.isDeleted then .error "Not found"
    else
      match getConv db cid with
      | none => .error "Not found"
      | some conversation =>
        match directSendGate db me cid conversation with
        | .error e => .error e
        | .ok _ =>
          let caption := strTrim (caption.getD "")
          let replyOk : Except String Unit :=
            match replyToMessageId with
            | none => .ok ()
            | some rid =>
              match getMsg db rid with
              | none => .error "Invalid reply target"
              | some replyTarget =>
                if replyTarget.conversationId != cid then .error "Invalid reply target"
                else .ok ()
          match replyOk with
          | .error e => .error e
          | .ok _ =>
            let db1 : DB :=
              { db with
                messages := db.messages ++
                  [{ id := db.nextId, conversationId := cid, senderId := me,
                     body := caption, replyToMessageId := replyToMessageId,
                     mediaType := some mediaType, mediaStorageId := some storageId,
                     createdAt := now, deleted := false }]
                nextId := db.nextId + 1 }
            let lastMessageText :=
              if mediaType == "image" then
                if caption != "" then "📷 " ++ caption else "📷 Photo"
              else if mediaType == "video" then
                if caption != "" then "🎬 " ++ caption else "🎬 Video"
              else
                if caption != "" then "🎤 " ++ caption else "🎤 Voice note"
            let db2 := patchConv db1 cid (fun c =>
              { c with updatedAt := now, lastMessageText := some lastMessageText,
                       lastMessageAt := some now })
            let db3 := patchMember db2 membership.id (fun m =>
              { m with lastReadAt := some now })
            let db4 := unhideOtherMembers db3 me cid
            .ok (clearTyping db4 me cid)

/-! ## Conversation directory -/

/-- The scan condition of the find-or-create loop: the membership's
conversation exists, is direct, has exactly two member rows, and one of
them is the target user. -/
def directMatch (db : DB) (otherUserId : Nat) (membership : MemberRow) : Bool :=
  match getConv db membership.conversationId with
  | none => false
  | some conversation =>
    !conversation.isGroup &&
    (membersOf db membership.conversationId).length == 2 &&
    (membersOf db membership.conversationId).any (fun m => m.userId == otherUserId)

/-- `conversations.getOrCreateDirectConversation`. -/
def getOrCreateDirectConversation (db : DB) (now : Nat) (me otherUserId : Nat) :
    Except String (DB × Nat) :=
  if me == otherUserId then .error "Cannot message yourself"
  else if isBlockedBetween db me otherUserId then .error "Cannot message this user"
  else if !canMessageUser db me otherUserId then
    .error "Messaging disabled by privacy settings"
  else
    match (membershipsOf db me).find? (directMatch db otherUserId) with
    | some membership =>
      if membership.isDeleted then
        .ok (patchMember db membership.id (fun m =>
               { m with isDeleted := false, lastReadAt := some now }),
             membership.conversationId)
      else .ok (db, membership.conversationId)
    | none =>
      let conversationId := db.nextId
      let db1 : DB :=
        { db with
          conversations := db.conversations ++
            [{ id := conversationId, isGroup := false, name := none,
               createdBy := me, updatedAt := now,
               lastMessageText := none, lastMessageAt := none }]
          nextId := db.nextId + 1 }
      let db2 : DB :=
        { db1 with
          members := db1.members ++
            [{ id := db1.nextId, conversationId := conversationId, userId := me,
               joinedAt := now, role := some "member", lastReadAt := some now,
               isDeleted := false }]
          nextId := db1.nextId + 1 }
      let db3 : DB :=
        { db2 with
          members := db2.members ++
            [{ id := db2.nextId, conversationId := conversationId,
               userId := otherUserId, joinedAt := now, role := some "member",
               lastReadAt := none, isDeleted := false }]
          nextId := db2.nextId + 1 }
      .ok (db3, conversationId)

/-- `conversations.deleteConversationForMe`: hide the conversation for the
caller, marking everything read; a second call is a no-op success. -/
def deleteConversationForMe (db : DB) (now : Nat) (me cid : Nat) : Except String DB :=
  match memberByConvUser db cid me with
  | none => .error "Not found"
  | some membership =>
    if membership.isDeleted then .ok db
    else
      let db1 := patchMember db membership.id (fun m =>
        { m with isDeleted := true, lastReadAt := some now })
      .ok (clearTyping db1 me cid)

/-! ## Group membership and roles -/

/-- `Array.from(new Set(xs))`: deduplicate keeping first occurrences. -/
def firstDedup : List Nat → List Nat
  | [] => []
  | x :: xs => x :: (firstDedup xs).filter (fun y => y ≠ x)

/-- Insertion of one fresh `member`-role row, the loop body of
`createGroupConversation`. -/
def insertGroupMemberRow (now cid : Nat) (acc : DB) (memberId : Nat) : DB :=
  { acc with
    members := acc.members ++
      [{ id := acc.nextId, conversationId := cid, userId := memberId,
         joinedAt := now, role := some "member", lastReadAt := none,
         isDeleted := false }]
    nextId := acc.nextId + 1 }

/-- `conversations.createGroupConversation`. -/
def createGroupConversation (db : DB) (now : Nat) (me : Nat) (name : String)
    (memberIds : List Nat) : Except String (DB × Nat) :=
  let trimmedName := strTrim name
  if trimmedName == "" then .error "Group name is required"
  else
    let filtered := (firstDedup memberIds).filter (fun uid => uid ≠ me)
    if filtered.length < 2 then .error "Select at least 2 other users"
    else
      let conversationId := db.nextId
      let db1 : DB :=
        { db with
          conversations := db.conversations ++
            [{ id := conversationId, isGroup := true, name := some trimmedName,
               createdBy := me, updatedAt := now,
               lastMessageText := none, lastMessageAt := none }]
          nextId := db.nextId + 1 }
      let db2 : DB :=
        { db1 with
          members := db1.members ++
            [{ id := db1.nextId, conversationId := conversationId, userId := me,
               joinedAt := now, role := some "owner", lastReadAt := some now,
               isDeleted := false }]
          nextId := db1.nextId + 1 }
      let db3 : DB := filtered.foldl (insertGroupMemberRow now conversationId) db2
      .ok (db3, conversationId)

/-- One step of `addGroupMembers`: restore an existing soft-deleted row
(preserving its role) or insert a fresh `member` row. -/
def addOneGroupMember (now cid : Nat) (db : DB) (memberId : Nat) : DB :=
  match memberByConvUser db cid memberId with
  | some existing =>
    if existing.isDeleted then
      patchMember db existing.id (fun m =>
        { m with isDeleted := false, joinedAt := now,
                 role := some (m.role.getD "member") })
    else db
  | none =>
    { db with
      members := db.members ++
        [{ id := db.nextId, conversationId := cid, userId := memberId,
           joinedAt := now, role := some "member", lastReadAt := none,
           isDeleted := false }]
      nextId := db.nextId + 1 }

/-- `conversations.addGroupMembers`. -/
def addGroupMembers (db : DB) (now : Nat) (me cid : Nat) (memberIds : List Nat) :
    Except String DB :=
  match memberByConvUser db cid me with
  | none => .error "Not found"
  | some myMembership =>
    if myMembership.isDeleted then .error "Not found"
    else if !(myMembership.role.getD "member" == "owner" ||
              myMembership.role.getD "member" == "admin") then .error "Forbidden"
    else
      match getConv db cid with
      | none => .error "Not found"
      | some conversation =>
        if !conversation.isGroup then .error "Not found"
        else
          let unique := (firstDedup memberIds).filter (fun uid => uid ≠ me)
          .ok (unique.foldl (addOneGroupMember now cid) db)

/-- `conversations.removeGroupMember`: the remover's role must outrank the
target's; the removal is a soft delete that also marks everything read. -/
def removeGroupMember (db : DB) (now : Nat) (me cid targetUserId : Nat) :
    Except String DB :=
  match memberByConvUser db cid me with
  | none => .error "Not found"
  | some myMembership =>
    if myMembership.isDeleted then .error "Not found"
    else
      match memberByConvUser db cid targetUserId with
      | none => .error "Not found"
      | some targetMembership =>
        if targetMembership.isDeleted then .error "Not found"
        else
          let myRole := myMembership.role.getD "member"
          let targetRole := targetMembership.role.getD "member"
          if myRole == "member" then .error "Forbidden"
          else if myRole == "admin" && targetRole != "member" then .error "Forbidden"
          else
            .ok (patchMember db targetMembership.id (fun m =>
              { m with isDeleted := true, lastReadAt := some now }))

/-- The validated role argument of `updateGroupMemberRole`:
`v.union(v.literal("admin"), v.literal("member"))`. -/
inductive GroupRoleArg
  | admin
  | member
deriving Repr, DecidableEq

/-- The string carried by a role argument. -/
def GroupRoleArg.str : GroupRoleArg → String
  | .admin => "admin"
  | .member => "member"

/-- `conversations.updateGroupMemberRole`: owner-only promote/demote that
may never target the owner. -/
def updateGroupMemberRole (db : DB) (me cid targetUserId : Nat)
    (role : GroupRoleArg) : Except String DB :=
  match memberByConvUser db cid me with
  | none => .error "Forbidden"
  | some myMembership =>
    if myMembership.isDeleted || myMembership.role.getD "member" != "owner" then
      .error "Forbidden"
    else
      match memberByConvUser db cid targetUserId with
      | none => .error "Not found"
      | some targetMembership =>
        if targetMembership.isDeleted then .error "Not found"
        else if targetMembership.role.getD "member" == "owner" then
          .error "Cannot change owner role"
        else
          .ok (patchMember db targetMembership.id (fun m =>
            { m with role := some role.str }))

/-! ## Typing status -/

/-- `users.updateTyping`: upsert or delete the caller's typing row.  The
membership gate tests only presence of the row, not its `isDeleted` flag. -/
def updateTyping (db : DB) (now : Nat) (me cid : Nat) (isTyping : Bool) :
    Except String (DB × Option Nat) :=
  match memberByConvUser db cid me with
  | none => .error "Not found"
  | some _ =>
    match typingByConvUser db cid me with
    | some existing =>
      if !isTyping then
        .ok ({ db with typing := db.typing.filter (fun t => t.id ≠ existing.id) }, none)
      else
        .ok ({ db with typing := db.typing.map (fun t =>
                 if t.id == existing.id then { t with updatedAt := now } else t) },
             some existing.id)
    | none =>
      if !isTyping then .ok (db, none)
      else
        .ok ({ db with
               typing := db.typing ++
                 [{ id := db.nextId, conversationId := cid, userId := me,
                    updatedAt := now }]
               nextId := db.nextId + 1 },
             some db.nextId)

/-- `users.listTypingUsers`: the typing rows of the conversation that are
not the caller's and not older than two seconds.  Like `updateTyping`, the
gate tests only presence of the caller's membership row. -/
def listTypingUsers (db : DB) (now : Nat) (me cid : Nat) :
    Except String (List (Nat × String)) :=
  match memberByConvUser db cid me with
  | none => .error "Not found"
  | some _ =>
    let activeThreshold := now - 2000
    let statuses := db.typing.filter (fun t => t.conversationId == cid)
    let active := statuses.filter
      (fun t => t.userId != me && t.updatedAt ≥ activeThreshold)
    .ok (active.map (fun t =>
      (t.userId, ((getUser db t.userId).map (fun u => u.name)).getD "Someone")))

/-! ## Message editing -/

/-- `messages.editOwnMessage`: sender-only, rejected on deleted messages
and empty bodies; appends a `messageEdits` row capturing the previous body
before overwriting it. -/
def editOwnMessage (db : DB) (now : Nat) (me mid : Nat) (body : String) :
    Except String DB :=
  match getMsg db mid with
  | none => .error "Message not found"
  | some message =>
    if message.senderId != me then .error "Forbidden"
    else if message.deleted then .error "Cannot edit deleted message"
    else
      let nextBody := strTrim body
      if nextBody == "" then .error "Message cannot be empty"
      else
        let db1 : DB :=
          { db with
            edits := db.edits ++
              [{ id := db.nextId, messageId := message.id, editorId := me,
                 previousBody := message.body, editedAt := now }]
            nextId := db.nextId + 1 }
        .ok (patchMsg db1 message.id (fun m => { m with body := nextBody }))

/-! ## Conversation listing -/

/-- One row of the caller's conversation list. -/
structure ConvListRow where
  id : Nat
  updatedAt : Nat
  isGroup : Bool
  memberCount : Nat
  unreadCount : Nat
  title : String
deriving Repr, DecidableEq

/-- The unread count of `listForCurrentUser`: messages of the conversation
from other senders newer than the caller's `lastReadAt ?? 0`. -/
def unreadCountFor (db : DB) (me : Nat) (membership : MemberRow) : Nat :=
  ((db.messages.filter (fun m => m.conversationId == membership.conversationId)).filter
    (fun m => m.senderId != me && m.createdAt > membership.lastReadAt.getD 0)).length

/-- The per-membership mapper of `conversations.listForCurrentUser`:
`none` when the membership is hidden, dangling, or suppressed by the
direct-conversation block check (which consults only the first *active*
other member). -/
def listRowFor (db : DB) (me : Nat) (membership : MemberRow) : Option ConvListRow :=
  if membership.isDeleted then none
  else
    match getConv db membership.conversationId with
    | none => none
    | some conversation =>
      let activeMembers := (membersOf db conversation.id).filter
        (fun m => !m.isDeleted)
      let otherMember := activeMembers.find? (fun m => m.userId != me)
      let otherUser := otherMember.bind (fun m => getUser db m.userId)
      let blocked :=
        match otherUser with
        | some u => !conversation.isGroup && isBlockedBetween db me u.id
        | none => false
      if blocked then none
      else
        some
          { id := conversation.id
            updatedAt := conversation.updatedAt
            isGroup := conversation.isGroup
            memberCount := activeMembers.length
            unreadCount := unreadCountFor db me membership
            title :=
              match conversation.isGroup, conversation.name with
              | true, some n => n
              | _, _ => ((otherUser.map (fun u => u.name)).getD "Unknown user") }

/-- Descending insertion by `updatedAt` (newest conversations first). -/
def insertByUpdatedAtDesc (r : ConvListRow) : List ConvListRow → List ConvListRow
  | [] => [r]
  | x :: xs =>
    if r.updatedAt ≥ x.updatedAt then r :: x :: xs else x :: insertByUpdatedAtDesc r xs

/-- `conversations.listForCurrentUser`: the caller's visible conversation
rows, newest first. -/
def listForCurrentUser (db : DB) (me : Nat) : List ConvListRow :=
  ((membershipsOf db me).filterMap (listRowFor db me)).foldr insertByUpdatedAtDesc []

/-! ## Upload queue validation (client-side) -/

/-- 10MB image ceiling. -/
def MAX_IMAGE_BYTES : Nat := 10 * 1024 * 1024
/-- 20MB video ceiling. -/
def MAX_VIDEO_BYTES : Nat := 20 * 1024 * 1024
/-- 12MB audio ceiling. -/
def MAX_AUDIO_BYTES : Nat := 12 * 1024 * 1024

/-- `String.prototype.startsWith`, written over the underlying character
sequence so that concrete instances evaluate. -/
def strStartsWith (s p : String) : Bool := p.data.isPrefixOf s.data

/-- The facts the queue processor reads off the enqueued `File`. -/
structure UploadFile where
  size : Nat
  mime : String
deriving Repr, DecidableEq

/-- The client-side state of an upload queue item. -/
inductive ItemStatus
  | queued
  | uploading
  | completed
  | failed
deriving Repr, DecidableEq

/-- The network interactions an upload performs, in order. -/
inductive ServerCall
  | generateUploadUrl
  | transferBytes
  | commitSendMedia
deriving Repr, DecidableEq

/-- The outcome of one `processQueue` tick on the first queued item. -/
structure ProcessOutcome where
  status : ItemStatus
  error : Option String
  progress : Nat
  calls : List ServerCall
deriving Repr, DecidableEq

/-- The validation phase of `processQueue`: MIME-class and per-kind size
checks, each transitioning the item straight to `failed` with no network
call; a valid file proceeds to upload (allocate target, transfer bytes,
commit the media message). -/
def processQueueValidate (file : UploadFile) : ProcessOutcome :=
  let isImage := strStartsWith file.mime "image/"
  let isVideo := strStartsWith file.mime "video/"
  let isAudio := strStartsWith file.mime "audio/"
  if !isImage && !isVideo && !isAudio then
    { status := .failed, error := some "Only image, video, and audio files are supported.",
      progress := 0, calls := [] }
  else if isImage && file.size > MAX_IMAGE_BYTES then
    { status := .failed, error := some "Image is too large. Max size is 10MB.",
      progress := 0, calls := [] }
  else if isVideo && file.size > MAX_VIDEO_BYTES then
    { status := .failed, error := some "Video is too large. Max size is 20MB.",
      progress := 0, calls := [] }
  else if isAudio && file.size > MAX_AUDIO_BYTES then
    { status := .failed, error := some "Audio is too large. Max size is 12MB.",
      progress := 0, calls := [] }
  else
    { status := .uploading, error := none, progress := 0,
      calls := [.generateUploadUrl, .transferBytes, .commitSendMedia] }

/-- A client performing successive edits of one message: each list entry
is the submitted body and the time of that edit. -/
def applyEdits (me mid : Nat) : DB → List (String × Nat) → Except String DB
  | db, [] => Except.ok db
  | db, (body, t) :: rest =>
    match editOwnMessage db t me mid body with
    | Except.error e => Except.error e
    | Except.ok db1 => applyEdits me mid db1 rest

/-- Well-formedness of the id allocator: every stored conversation id and
every membership's conversation reference precedes the next fresh id. -/
def FreshIds (db : DB) : Prop :=
  (∀ c ∈ db.conversations, c.id < db.nextId) ∧
  (∀ m ∈ db.members, m.conversationId < db.nextId)

/-- The direct-conversation membership invariant: every non-group
conversation has exactly two membership rows. -/
def directTwoInv (db : DB) : Prop :=
  ∀ c ∈ db.conversations, c.isGroup = false → (membersOf db c.id).length = 2

/-- The conversation row inserted by the creation branch of
`getOrCreateDirectConversation` (proof-side abbreviation). -/
def newDirectConv (db : DB) (now me : Nat) : ConversationRow :=
  { id := db.nextId, isGroup := false, name := none, createdBy := me,
    updatedAt := now, lastMessageText := none, lastMessageAt := none }

/-- The creator's membership row inserted by that branch. -/
def newDirectMemberMe (db : DB) (now me : Nat) : MemberRow :=
  { id := db.nextId + 1, conversationId := db.nextId, userId := me,
    joinedAt := now, role := some "member", lastReadAt := some now,
    isDeleted := false }

/-- The recipient's membership row inserted by that branch (no initial
`lastReadAt`, so the first message is unread for them). -/
def newDirectMemberOther (db : DB) (now other : Nat) : MemberRow :=
  { id := db.nextId + 1 + 1, conversationId := db.nextId, userId := other,
    joinedAt := now, role := some "member", lastReadAt := none,
    isDeleted := false }

/-- The database produced by the creation branch of
`getOrCreateDirectConversation`, written out (proof-side abbreviation). -/
def createdDirectDB (db : DB) (now me other : Nat) : DB :=
  { db with
    conversations := db.conversations ++ [newDirectConv db now me]
    members := (db.members ++ [newDirectMemberMe db now me]) ++
      [newDirectMemberOther db now other]
    nextId := db.nextId + 1 + 1 + 1 }

/-! ## Concrete databases for the pagination claim -/

/-- A message of conversation 1 with `createdAt = 5`. -/
def c5Msg1 : MessageRow :=
  { id := 40, conversationId := 1, senderId := 1, body := "first",
    replyToMessageId := none, mediaType := none, mediaStorageId := none,
    createdAt := 5, deleted := false }

/-- A second message of conversation 1 sharing the same `createdAt = 5`. -/
def c5Msg2 : MessageRow :=
  { c5Msg1 with id := 41, senderId := 2, body := "second" }

/-- A direct conversation of users 1 and 2 holding two non-deleted messages
whose `createdAt` values collide. -/
def c5DB : DB :=
  { users := [{ id := 1, name := "A", email := none },
              { id := 2, name := "B", email := none }]
    conversations := [{ id := 1, isGroup := false, name := none, createdBy := 1,
                        updatedAt := 5, lastMessageText := some "second",
                        lastMessageAt := some 5 }]
    members := [{ id := 20, conversationId := 1, userId := 1, joinedAt := 0,
                  role := some "member", lastReadAt := some 0, isDeleted := false },
                { id := 21, conversationId := 1, userId := 2, joinedAt := 0,
                  role := some "member", lastReadAt := some 0, isDeleted := false }]
    messages := [c5Msg1, c5Msg2]
    edits := []
    blocks := []
    privacy := []
    typing := []
    nextId := 42 }

/-- The same database with the timestamp collision removed (`createdAt`
5 and 7). -/
def c5DB2 : DB :=
  { c5DB with messages := [c5Msg1, { c5Msg2 with createdAt := 7 }] }

/-! ## Concrete rows and databases used by the claim theorems -/

/-- A 25MB video file, as in the specified scenario. -/
def bigVideoFile : UploadFile := { size := 25 * 1024 * 1024, mime := "video/mp4" }

/-- Member row of user 2 in the status witness database. -/
def c1Member2 : MemberRow :=
  { id := 21, conversationId := 10, userId := 2, joinedAt := 0,
    role := some "member", lastReadAt := some 10, isDeleted := false }

/-- A three-member group: the viewer 1 authored the message, member 2 has
read it with receipts on, member 3 has read it with receipts off. -/
def c1DB : DB :=
  { users := [{ id := 1, name := "Alice", email := none },
              { id := 2, name := "Bob", email := none },
              { id := 3, name := "Cara", email := none }]
    conversations := [{ id := 10, isGroup := true, name := some "g", createdBy := 1,
                        updatedAt := 0, lastMessageText := none, lastMessageAt := none }]
    members := [
      { id := 20, conversationId := 10, userId := 1, joinedAt := 0,
        role := some "owner", lastReadAt := some 0, isDeleted := false },
      c1Member2,
      { id := 22, conversationId := 10, userId := 3, joinedAt := 0,
        role := some "member", lastReadAt := some 10, isDeleted := false }]
    messages := [{ id := 50, conversationId := 10, senderId := 1, body := "hi",
                   replyToMessageId := none, mediaType := none, mediaStorageId := none,
                   createdAt := 5, deleted := false }]
    edits := []
    blocks := []
    privacy := [{ userId := 3, readReceiptsEnabled := false,
                  lastSeenVisibility := "everyone", whoCanMessage := "everyone" }]
    typing := []
    nextId := 100 }

/-- The message of the status witness database. -/
def c1Msg : MessageRow :=
  { id := 50, conversationId := 10, senderId := 1, body := "hi",
    replyToMessageId := none, mediaType := none, mediaStorageId := none,
    createdAt := 5, deleted := false }

/-- User 2's membership row in the typing-gate database: present but
soft-deleted. -/
def c4Member : MemberRow :=
  { id := 5, conversationId := 1, userId := 2, joinedAt := 0,
    role := some "member", lastReadAt := some 0, isDeleted := true }

/-- A database whose only membership row is hidden (`isDeleted = true`). -/
def c4DB : DB :=
  { users := [{ id := 2, name := "Bob", email := none }]
    conversations := [{ id := 1, isGroup := false, name := none, createdBy := 2,
                        updatedAt := 0, lastMessageText := none, lastMessageAt := none }]
    members := [c4Member]
    messages := []
    edits := []
    blocks := []
    privacy := []
    typing := []
    nextId := 7 }

/-- Empty three-user database for the group scenario. -/
def c7DB0 : DB :=
  { users := [{ id := 1, name := "A", email := none },
              { id := 2, name := "B", email := none },
              { id := 3, name := "C", email := none }]
    conversations := []
    members := []
    messages := []
    edits := []
    blocks := []
    privacy := []
    typing := []
    nextId := 10 }

/-- A's owner membership in group 10. -/
def c7MemberA : MemberRow :=
  { id := 11, conversationId := 10, userId := 1, joinedAt := 100,
    role := some "owner", lastReadAt := some 100, isDeleted := false }

/-- B's membership in group 10 (initially a mere member). -/
def c7MemberB : MemberRow :=
  { id := 12, conversationId := 10, userId := 2, joinedAt := 100,
    role := some "member", lastReadAt := none, isDeleted := false }

/-- C's membership in group 10. -/
def c7MemberC : MemberRow :=
  { id := 13, conversationId := 10, userId := 3, joinedAt := 100,
    role := some "member", lastReadAt := none, isDeleted := false }

/-- State after A creates group 10 with members B and C. -/
def c7DB1 : DB :=
  { c7DB0 with
    conversations := [{ id := 10, isGroup := true, name := some "Team", createdBy := 1,
                        updatedAt := 100, lastMessageText := none, lastMessageAt := none }]
    members := [c7MemberA, c7MemberB, c7MemberC]
    nextId := 14 }

/-- State after A promotes B to admin. -/
def c7DB2 : DB :=
  { c7DB1 with
    members := [c7MemberA, { c7MemberB with role := some "admin" }, c7MemberC] }

/-- State after admin B removes member C (soft delete marking read). -/
def c7DB3 : DB :=
  { c7DB1 with
    members := [c7MemberA, { c7MemberB with role := some "admin" },
                { c7MemberC with isDeleted := true, lastReadAt := some 200 }] }

/-- An active (non-deleted) membership row carrying the `owner` role. -/
def activeOwner (m : MemberRow) : Bool :=
  !m.isDeleted && m.role.getD "member" == "owner"

/-- Whether some non-deleted membership of the conversation has role
`owner`. -/
def hasActiveOwner (db : DB) (cid : Nat) : Bool :=
  (membersOf db cid).any activeOwner

/-- The number of membership rows (deleted or not) carrying role `owner`. -/
def ownerRowCount (db : DB) : Nat :=
  (db.members.filter (fun m => m.role.getD "member" == "owner")).length

/-- State after the group owner removes their own membership. -/
def c8DB : DB :=
  { c7DB1 with
    members := [{ c7MemberA with isDeleted := true, lastReadAt := some 200 },
                c7MemberB, c7MemberC] }

/-- Database for the hide-conversation witness: user 2 is an active member
with an older inbound message from user 3. -/
def c10DB : DB :=
  { users := [{ id := 2, name := "Bob", email := none },
              { id := 3, name := "Cara", email := none }]
    conversations := [{ id := 1, isGroup := false, name := none, createdBy := 2,
                        updatedAt := 0, lastMessageText := none, lastMessageAt := none }]
    members := [{ id := 4, conversationId := 1, userId := 2, joinedAt := 0,
                  role := some "member", lastReadAt := some 10, isDeleted := false },
                { id := 5, conversationId := 1, userId := 3, joinedAt := 0,
                  role := some "member", lastReadAt := some 0, isDeleted := false }]
    messages := [{ id := 6, conversationId := 1, senderId := 3, body := "hey",
                   replyToMessageId := none, mediaType := none, mediaStorageId := none,
                   createdAt := 50, deleted := false }]
    edits := []
    blocks := []
    privacy := []
    typing := []
    nextId := 7 }

/-- Database for the edit-history witness: user 2's message, no edits. -/
def c6DB : DB :=
  { users := [{ id := 2, name := "Bob", email := none }]
    conversations := [{ id := 1, isGroup := false, name := none, createdBy := 2,
                        updatedAt := 0, lastMessageText := none, lastMessageAt := none }]
    members := [{ id := 3, conversationId := 1, userId := 2, joinedAt := 0,
                  role := some "member", lastReadAt := some 0, isDeleted := false }]
    messages := [{ id := 6, conversationId := 1, senderId := 2, body := "one",
                   replyToMessageId := none, mediaType := none, mediaStorageId := none,
                   createdAt := 5, deleted := false }]
    edits := []
    blocks := []
    privacy := []
    typing := []
    nextId := 7 }

/-- A's membership of the direct conversation in the listing
counterexample. -/
def c2DB : DB :=
  { users := [{ id := 1, name := "A", email := none },
              { id := 2, name := "B", email := none }]
    conversations := [{ id := 10, isGroup := false, name := none, createdBy := 1,
                        updatedAt := 5, lastMessageText := none, lastMessageAt := none }]
    members := [{ id := 20, conversationId := 10, userId := 1, joinedAt := 0,
                  role := some "member", lastReadAt := some 0, isDeleted := false },
                { id := 21, conversationId := 10, userId := 2, joinedAt := 0,
                  role := some "member", lastReadAt := some 0, isDeleted := true }]
    messages := []
    edits := []
    blocks := [{ id := 30, blockerId := 1, blockedId := 2, createdAt := 1 }]
    privacy := []
    typing := []
    nextId := 31 }

/-- Variant of the counterexample database in which both memberships are
active, so every suppression effect applies. -/
def c2DB2 : DB :=
  { c2DB with
    members := [{ id := 20, conversationId := 10, userId := 1, joinedAt := 0,
                  role := some "member", lastReadAt := some 0, isDeleted := false },
                { id := 21, conversationId := 10, userId := 2, joinedAt := 0,
                  role := some "member", lastReadAt := some 0, isDeleted := false }] }

/-- A two-user database with no conversations yet. -/
def c3DB : DB :=
  { users := [{ id := 1, name := "A", email := none },
              { id := 2, name := "B", email := none }]
    conversations := []
    members := []
    messages := []
    edits := []
    blocks := []
    privacy := []
    typing := []
    nextId := 5 }

/-! ## Generic helper lemmas about patched tables -/

/-- `find?` commutes with a pointwise patch that does not disturb the
search predicate. -/
theorem find?_map_congr {α : Type} (g : α → α) (p : α → Bool) (l : List α)
    (hp : ∀ a, p (g a) = p a) : (l.map g).find? p = (l.find? p).map g := by
  rw [List.find?_map]
  have : p ∘ g = p := funext hp
  rw [this]

/-- `filter` commutes with a pointwise patch that does not disturb the
filter predicate. -/
theorem filter_map_congr {α : Type} (g : α → α) (p : α → Bool) (l : List α)
    (hp : ∀ a, p (g a) = p a) : (l.map g).filter p = (l.filter p).map g := by
  rw [List.filter_map]
  have : p ∘ g = p := funext hp
  rw [this]

/-- Patching member rows leaves per-conversation member collections intact
up to the pointwise patch, provided the patch preserves `conversationId`. -/
theorem membersOf_patchMember (db : DB) (i : Nat) (f : MemberRow → MemberRow) (cid : Nat)
    (hf : ∀ m : MemberRow, (f m).conversationId = m.conversationId) :
    membersOf (patchMember db i f) cid =
      (membersOf db cid).map (fun m => if m.id == i then f m else m) := by
  unfold membersOf patchMember
  exact filter_map_congr _ _ _ (fun m => by
    by_cases h : m.id == i <;> simp [h, hf])

/-- As `membersOf_patchMember`, for the caller's membership collection. -/
theorem membershipsOf_patchMember (db : DB) (i : Nat) (f : MemberRow → MemberRow) (uid : Nat)
    (hf : ∀ m : MemberRow, (f m).userId = m.userId) :
    membershipsOf (patchMember db i f) uid =
      (membershipsOf db uid).map (fun m => if m.id == i then f m else m) := by
  unfold membershipsOf patchMember
  exact filter_map_congr _ _ _ (fun m => by
    by_cases h : m.id == i <;> simp [h, hf])

/-- As `membersOf_patchMember`, for the unique membership lookup. -/
theorem memberByConvUser_patchMember (db : DB) (i : Nat) (f : MemberRow → MemberRow)
    (cid uid : Nat)
    (hf : ∀ m : MemberRow, (f m).conversationId = m.conversationId ∧ (f m).userId = m.userId) :
    memberByConvUser (patchMember db i f) cid uid =
      (memberByConvUser db cid uid).map (fun m => if m.id == i then f m else m) := by
  unfold memberByConvUser patchMember
  exact find?_map_congr _ _ _ (fun m => by
    by_cases h : m.id == i <;> simp [h, (hf m).1, (hf m).2])

/-! ## C9: upload queue client-side validation -/

/-- C9: an enqueued file whose MIME type is outside the image/video/audio
classes, or whose size exceeds its per-kind ceiling (image 10MB, video
20MB, audio 12MB), is transitioned straight to `failed` with a descriptive
reason and zero progress, and the processor performs no server interaction:
it neither allocates an upload target (`generateUploadUrl`) nor transfers
bytes nor calls `sendMedia`. -/
theorem upload_validation_fails_early (file : UploadFile)
    (h : (¬ (strStartsWith file.mime "image/" = true ∨ strStartsWith file.mime "video/" = true ∨
             strStartsWith file.mime "audio/" = true))
       ∨ (strStartsWith file.mime "image/" = true ∧ MAX_IMAGE_BYTES < file.size)
       ∨ (strStartsWith file.mime "video/" = true ∧ MAX_VIDEO_BYTES < file.size)
       ∨ (strStartsWith file.mime "audio/" = true ∧ MAX_AUDIO_BYTES < file.size)) :
    (processQueueValidate file).status = ItemStatus.failed ∧
    (processQueueValidate file).error.isSome = true ∧
    (processQueueValidate file).calls = [] := by
  unfold processQueueValidate
  rcases h with h | ⟨hc, hs⟩ | ⟨hc, hs⟩ | ⟨hc, hs⟩
  · push_neg at h
    obtain ⟨h1, h2, h3⟩ := h
    simp only [Bool.not_eq_true] at h1 h2 h3
    simp [h1, h2, h3]
  · have hs' : MAX_IMAGE_BYTES < file.size := hs
    simp only [hc, Bool.not_true, Bool.false_and, Bool.and_false, Bool.true_and]
    simp [hs']
  · have h10 : MAX_IMAGE_BYTES < file.size :=
      lt_trans (by norm_num [MAX_IMAGE_BYTES, MAX_VIDEO_BYTES]) hs
    simp only [hc, Bool.not_true, Bool.and_false, Bool.false_and, Bool.true_and]
    by_cases hi : strStartsWith file.mime "image/" = true
    · simp [hi, h10]
    · simp only [Bool.not_eq_true] at hi
      simp [hi, hs]
  · simp only [hc, Bool.not_true, Bool.and_false, Bool.false_and, Bool.true_and]
    by_cases hi : strStartsWith file.mime "image/" = true
    · have h10 : MAX_IMAGE_BYTES < file.size :=
        lt_trans (by norm_num [MAX_IMAGE_BYTES, MAX_AUDIO_BYTES]) hs
      simp [hi, h10]
    · simp only [Bool.not_eq_true] at hi
      by_cases hv : strStartsWith file.mime "video/" = true
      · by_cases h20 : MAX_VIDEO_BYTES < file.size
        · simp [hi, hv, h20]
        · simp [hi, hv, h20, hs]
      · simp only [Bool.not_eq_true] at hv
        simp [hi, hv, hs]

/-- Witness for C9: the 25MB video is failed with the size-limit reason and
an empty server-call trace, via the validation theorem at that input. -/
theorem upload_validation_fails_early_witness :
    (processQueueValidate bigVideoFile).status = ItemStatus.failed ∧
    (processQueueValidate bigVideoFile).error.isSome = true ∧
    (processQueueValidate bigVideoFile).calls = [] :=
  upload_validation_fails_early bigVideoFile
    (Or.inr (Or.inr (Or.inl ⟨by decide, by norm_num [MAX_VIDEO_BYTES, bigVideoFile]⟩)))



/-! ## C1: derived message status and seen-by list -/

/-- C1: the status derived by `messages.list` is computed only for the
viewer's own messages (`null` otherwise); for an own message it is `sent`
when no other non-deleted membership exists, `read` when some other
non-deleted member exposes read receipts and has `lastReadAt ≥ createdAt`,
and `delivered` otherwise; and the seen-by list contains exactly the other
non-deleted members who expose read receipts and have read the message,
excluding receipt-disabled members even when their `lastReadAt` qualifies. -/
theorem message_status_spec (db : DB) (me : Nat) (message : MessageRow) :
    (message.senderId ≠ me → (messageView db me message).status = none)
    ∧ (message.senderId = me → otherActiveMembers db message = [] →
        (messageView db me message).status = some "sent")
    ∧ (message.senderId = me →
        (∃ member ∈ otherActiveMembers db message,
          (getOrCreatePrivacySettings db member.userId).readReceiptsEnabled = true ∧
          message.createdAt ≤ member.lastReadAt.getD 0) →
        (messageView db me message).status = some "read")
    ∧ (message.senderId = me → otherActiveMembers db message ≠ [] →
        (∀ member ∈ otherActiveMembers db message,
          (getOrCreatePrivacySettings db member.userId).readReceiptsEnabled = true →
          member.lastReadAt.getD 0 < message.createdAt) →
        (messageView db me message).status = some "delivered")
    ∧ (∀ u : Nat,
        (∃ e ∈ (messageView db me message).seenBy, e.userId = u) ↔
        (∃ member ∈ otherActiveMembers db message, member.userId = u ∧
          (getOrCreatePrivacySettings db member.userId).readReceiptsEnabled = true ∧
          message.createdAt ≤ member.lastReadAt.getD 0)) := by
  have hq : ∀ member : MemberRow, seenQualifies db message member = true ↔
      ((getOrCreatePrivacySettings db member.userId).readReceiptsEnabled = true ∧
        message.createdAt ≤ member.lastReadAt.getD 0) := by
    intro member
    simp [seenQualifies, Nat.not_lt]
  refine ⟨?_, ?_, ?_, ?_, ?_⟩
  · intro hne
    have hb : (message.senderId == me) = false := by simp [hne]
    simp [messageView, hb]
  · intro heq hemp
    have hb : (message.senderId == me) = true := by simp [heq]
    simp [messageView, hb, hemp]
  · intro heq hex
    obtain ⟨member, hmem, hrr, hle⟩ := hex
    have hb : (message.senderId == me) = true := by simp [heq]
    have hmemf : member ∈ (otherActiveMembers db message).filter (seenQualifies db message) :=
      List.mem_filter.mpr ⟨hmem, (hq member).mpr ⟨hrr, hle⟩⟩
    have hpos : 0 <
        (((otherActiveMembers db message).filter (seenQualifies db message)).map
          (fun member =>
            { userId := member.userId
              name := resolveUserDisplayName (getUser db member.userId) : SeenEntry })).length := by
      rw [List.length_map]
      exact List.length_pos.mpr (List.ne_nil_of_mem hmemf)
    simp only [messageView, hb, Bool.not_true, Bool.false_eq_true, if_false]
    rw [if_pos hpos]
  · intro heq hne hall
    have hb : (message.senderId == me) = true := by simp [heq]
    have hnil : (otherActiveMembers db message).filter (seenQualifies db message) = [] := by
      apply List.filter_eq_nil_iff.mpr
      intro member hmem hqt
      obtain ⟨hrr, hle⟩ := (hq member).mp hqt
      exact absurd (hall member hmem hrr) (Nat.not_lt.mpr hle)
    have hpos : 0 < (otherActiveMembers db message).length :=
      List.length_pos.mpr hne
    simp only [messageView, hb, Bool.not_true, Bool.false_eq_true, if_false, hnil,
      List.map_nil, List.length_nil]
    rw [if_neg (lt_irrefl 0), if_pos (decide_eq_true hpos)]
  · intro u
    constructor
    · intro hex
      obtain ⟨e, hmem, heu⟩ := hex
      have hsb : (messageView db me message).seenBy =
          ((otherActiveMembers db message).filter (seenQualifies db message)).map
            (fun member =>
              { userId := member.userId
                name := resolveUserDisplayName (getUser db member.userId) : SeenEntry }) := rfl
      rw [hsb] at hmem
      obtain ⟨member, hmf, hfe⟩ := List.mem_map.mp hmem
      obtain ⟨hmo, hqt⟩ := List.mem_filter.mp hmf
      obtain ⟨hrr, hle⟩ := (hq member).mp hqt
      refine ⟨member, hmo, ?_, hrr, hle⟩
      have : e.userId = member.userId := by rw [← hfe]
      omega
    · intro hex
      obtain ⟨member, hmo, huid, hrr, hle⟩ := hex
      refine ⟨{ userId := member.userId
                name := resolveUserDisplayName (getUser db member.userId) }, ?_, huid⟩
      show _ ∈ ((otherActiveMembers db message).filter (seenQualifies db message)).map _
      exact List.mem_map.mpr ⟨member,
        List.mem_filter.mpr ⟨hmo, (hq member).mpr ⟨hrr, hle⟩⟩, rfl⟩
/-- Witness for C1: member 2 read with receipts on makes the status `read`,
and receipt-disabled member 3 is kept out of the seen-by list even though
their `lastReadAt` qualifies. -/
theorem message_status_spec_witness :
    (messageView c1DB 1 c1Msg).status = some "read" ∧
    ¬ (∃ e ∈ (messageView c1DB 1 c1Msg).seenBy, e.userId = 3) := by
  constructor
  · exact (message_status_spec c1DB 1 c1Msg).2.2.1 rfl
      ⟨c1Member2, by decide, by decide, by decide⟩
  · intro hcon
    obtain ⟨member, hmem, hmu, hrr, _⟩ :=
      ((message_status_spec c1DB 1 c1Msg).2.2.2.2 3).mp hcon
    have hms : member ∈ c1DB.members :=
      List.mem_of_mem_filter (List.mem_of_mem_filter hmem)
    have hlit : c1DB.members = [
        { id := 20, conversationId := 10, userId := 1, joinedAt := 0,
          role := some "owner", lastReadAt := some 0, isDeleted := false },
        c1Member2,
        { id := 22, conversationId := 10, userId := 3, joinedAt := 0,
          role := some "member", lastReadAt := some 10, isDeleted := false }] := rfl
    rw [hlit] at hms
    rcases List.mem_cons.mp hms with h | hms
    · rw [h] at hmu; exact absurd hmu (by decide)
    rcases List.mem_cons.mp hms with h | hms
    · rw [h] at hmu; exact absurd hmu (by decide)
    rcases List.mem_cons.mp hms with h | hms
    · rw [h] at hrr
      exact absurd hrr (by decide)
    · exact absurd hms (List.not_mem_nil member)

/-! ## C4: membership gate and the typing-status exception -/

/-- Counterexample to C4: the typing-status write and read gate on mere
presence of the membership row, so a caller whose membership is
soft-deleted is *not* rejected — `updateTyping` and `listTypingUsers`
succeed instead of failing with the "Not found" outcome. -/
theorem typing_gate_ignores_hidden_membership :
    memberByConvUser c4DB 1 2 = some c4Member ∧
    c4Member.isDeleted = true ∧
    (updateTyping c4DB 1000 2 1 true).isOk = true ∧
    (listTypingUsers c4DB 1000 2 1).isOk = true := by
  exact ⟨rfl, rfl, rfl, rfl⟩

/-- C4 as amended: `messages.list` treats an absent membership row, a
soft-deleted membership row, and a missing conversation identically,
failing with the same "Not found" outcome (never "Forbidden"); the
typing-status write and read also fail with "Not found" when the
membership row is absent, but they check only presence: with a membership
row present — even soft-deleted — both succeed. -/
theorem membership_gate_amended :
    (∀ db me cid before limit, memberByConvUser db cid me = none →
        listQ db me cid before limit = Except.error "Not found")
    ∧ (∀ db me cid before limit ms, memberByConvUser db cid me = some ms →
        ms.isDeleted = true →
        listQ db me cid before limit = Except.error "Not found")
    ∧ (∀ db me cid before limit, getConv db cid = none →
        listQ db me cid before limit = Except.error "Not found")
    ∧ (∀ db now me cid isTyping, memberByConvUser db cid me = none →
        updateTyping db now me cid isTyping = Except.error "Not found")
    ∧ (∀ db now me cid, memberByConvUser db cid me = none →
        listTypingUsers db now me cid = Except.error "Not found")
    ∧ (∀ db now me cid isTyping ms, memberByConvUser db cid me = some ms →
        (updateTyping db now me cid isTyping).isOk = true)
    ∧ (∀ db now me cid ms, memberByConvUser db cid me = some ms →
        (listTypingUsers db now me cid).isOk = true) := by
  refine ⟨?_, ?_, ?_, ?_, ?_, ?_, ?_⟩
  · intro db me cid before limit h
    simp [listQ, h]
  · intro db me cid before limit ms h hdel
    simp [listQ, h, hdel]
  · intro db me cid before limit h
    unfold listQ
    cases hm : memberByConvUser db cid me with
    | none => rfl
    | some ms =>
      by_cases hdel : ms.isDeleted = true
      · simp [hdel]
      · simp only [Bool.not_eq_true] at hdel
        simp [hdel, h]
  · intro db now me cid isTyping h
    simp [updateTyping, h]
  · intro db now me cid h
    simp [listTypingUsers, h]
  · intro db now me cid isTyping ms h
    unfold updateTyping
    rw [h]
    cases ht : typingByConvUser db cid me <;> cases isTyping <;> rfl
  · intro db now me cid ms h
    unfold listTypingUsers
    rw [h]
    rfl

/-- Witness for the amended C4 at concrete inputs: user 1 has no
membership so `messages.list` is "Not found", while soft-deleted user 2
can still write typing status. -/
theorem membership_gate_amended_witness :
    listQ c4DB 1 1 none none = Except.error "Not found" ∧
    (updateTyping c4DB 1000 2 1 true).isOk = true := by
  constructor
  · exact membership_gate_amended.1 c4DB 1 1 none none (by decide)
  · exact membership_gate_amended.2.2.2.2.2.1 c4DB 1000 2 1 true c4Member (by decide)

/-! ## C7: group removal scenario -/

/-- Counterexample to C7: running the exact scenario, C's attempt to
remove B fails — but with the "Not found" outcome (C's membership row is
already soft-deleted, so C is treated as a non-member), not with the
"Forbidden" error the claim states. -/
theorem removal_scenario_counterexample :
    createGroupConversation c7DB0 100 1 "Team" [2, 3] = Except.ok (c7DB1, 10) ∧
    updateGroupMemberRole c7DB1 1 10 2 GroupRoleArg.admin = Except.ok c7DB2 ∧
    removeGroupMember c7DB2 200 2 10 3 = Except.ok c7DB3 ∧
    removeGroupMember c7DB3 300 3 10 2 = Except.error "Not found" ∧
    "Not found" ≠ "Forbidden" :=
  ⟨rfl, rfl, rfl, rfl, by decide⟩

/-- C7 as amended: in the scenario, admin B's removal of member C
succeeds and C's subsequent attempt to remove B fails — with "Not found",
because C's membership row is already soft-deleted and removed members
are indistinguishable from non-members; a *still-active* mere member
attempting any removal is rejected with "Forbidden", and an active admin
removing a mere member succeeds (the remover's role must outrank the
target's). -/
theorem removal_scenario_amended :
    (removeGroupMember c7DB2 200 2 10 3 = Except.ok c7DB3 ∧
     removeGroupMember c7DB3 300 3 10 2 = Except.error "Not found")
    ∧ (∀ db now me cid target my tm,
        memberByConvUser db cid me = some my → my.isDeleted = false →
        my.role.getD "member" = "member" →
        memberByConvUser db cid target = some tm → tm.isDeleted = false →
        removeGroupMember db now me cid target = Except.error "Forbidden")
    ∧ (∀ db now me cid target my tm,
        memberByConvUser db cid me = some my → my.isDeleted = false →
        my.role.getD "member" = "admin" →
        memberByConvUser db cid target = some tm → tm.isDeleted = false →
        tm.role.getD "member" = "member" →
        (removeGroupMember db now me cid target).isOk = true) := by
  refine ⟨⟨rfl, rfl⟩, ?_, ?_⟩
  · intro db now me cid target my tm hmy hdel hrole htm htdel
    unfold removeGroupMember
    rw [hmy, htm]
    simp [hdel, htdel, hrole]
  · intro db now me cid target my tm hmy hdel hrole htm htdel htrole
    unfold removeGroupMember
    rw [hmy, htm]
    simp [hdel, htdel, hrole, htrole, Except.isOk, Except.toBool]

/-- Witness for the amended C7: before the promotion, mere member B's
attempt to remove C is rejected with "Forbidden". -/
theorem removal_scenario_amended_witness :
    removeGroupMember c7DB1 500 2 10 3 = Except.error "Forbidden" :=
  removal_scenario_amended.2.1 c7DB1 500 2 10 3 c7MemberB c7MemberC
    rfl rfl rfl rfl rfl

/-! ## C8: the active-owner invariant of groups -/

/-- Counterexample to C8: `removeGroupMember` lets the owner remove
*themselves* (owner outranks owner is not rejected and there is no
self-removal check), reaching a state whose group has no non-deleted
`owner` membership. -/
theorem owner_self_removal_counterexample :
    hasActiveOwner c7DB1 10 = true ∧
    removeGroupMember c7DB1 200 1 10 1 = Except.ok c8DB ∧
    hasActiveOwner c8DB 10 = false :=
  ⟨rfl, rfl, rfl⟩

/-- `any` survives a pointwise map that preserves satisfaction. -/
theorem any_map_mono {α : Type} (g : α → α) (p : α → Bool) (l : List α)
    (hp : ∀ a, p a = true → p (g a) = true) (h : l.any p = true) :
    (l.map g).any p = true := by
  obtain ⟨x, hx, hpx⟩ := List.any_eq_true.mp h
  exact List.any_eq_true.mpr ⟨g x, List.mem_map_of_mem g hx, hp x hpx⟩

/-- Filtering after a pointwise patch that does not disturb the predicate
on the list's members keeps the filtered length. -/
theorem length_filter_map_congr {α : Type} (g : α → α) (p : α → Bool) (l : List α)
    (hp : ∀ a ∈ l, p (g a) = p a) :
    ((l.map g).filter p).length = (l.filter p).length := by
  induction l with
  | nil => rfl
  | cons x xs ih =>
    have hx := hp x (List.mem_cons_self x xs)
    have ih' := ih (fun a ha => hp a (List.mem_cons_of_mem x ha))
    simp only [List.map_cons, List.filter_cons, hx]
    cases hpx : p x <;> simp [ih']

/-- Rows present in the accumulator survive the member-insertion fold of
`createGroupConversation`. -/
theorem mem_foldl_insertGroupMemberRow (now cid : Nat) :
    ∀ (l : List Nat) (acc : DB) (x : MemberRow), x ∈ acc.members →
      x ∈ (l.foldl (insertGroupMemberRow now cid) acc).members := by
  intro l
  induction l with
  | nil => intro acc x hx; exact hx
  | cons y ys ih =>
    intro acc x hx
    exact ih (insertGroupMemberRow now cid acc y) x
      (by simp [insertGroupMemberRow]; exact Or.inl hx)

/-- `addOneGroupMember` never loses an active owner. -/
theorem addOneGroupMember_hasActiveOwner (now cid : Nat) (db : DB) (u : Nat) (cidq : Nat)
    (h : hasActiveOwner db cidq = true) :
    hasActiveOwner (addOneGroupMember now cid db u) cidq = true := by
  unfold addOneGroupMember
  cases hex : memberByConvUser db cid u with
  | some existing =>
    by_cases hdel : existing.isDeleted = true
    · simp only [hdel, if_true]
      unfold hasActiveOwner at h ⊢
      rw [membersOf_patchMember db existing.id
        (fun m => { m with isDeleted := false, joinedAt := now,
                           role := some (m.role.getD "member") }) cidq (fun m => rfl)]
      refine any_map_mono _ _ _ ?_ h
      intro m hm
      by_cases hid : (m.id == existing.id) = true
      · simp only [hid, if_true]
        unfold activeOwner at hm ⊢
        simp only [Bool.and_eq_true, Bool.not_eq_true'] at hm
        simp [hm.2]
      · simp only [Bool.not_eq_true] at hid
        simp [hid, hm]
    · simp only [Bool.not_eq_true] at hdel
      simp [hdel, h]
  | none =>
    unfold hasActiveOwner at h ⊢
    unfold membersOf at h ⊢
    simp only [List.filter_append, List.any_append]
    rw [Bool.or_eq_true]
    exact Or.inl h

/-- A patch that can only touch rows that are not active owners preserves
the active-owner bit of a conversation. -/
theorem patchMember_hasActiveOwner_skip (db : DB) (i : Nat) (f : MemberRow → MemberRow)
    (hf : ∀ m : MemberRow, (f m).conversationId = m.conversationId)
    (hskip : ∀ m ∈ db.members, m.id = i → activeOwner m = false)
    (cidq : Nat) (h : hasActiveOwner db cidq = true) :
    hasActiveOwner (patchMember db i f) cidq = true := by
  unfold hasActiveOwner at h ⊢
  rw [membersOf_patchMember db i f cidq hf]
  obtain ⟨m, hm, hpm⟩ := List.any_eq_true.mp h
  have hmm : m ∈ db.members := List.mem_of_mem_filter hm
  have hid : (m.id == i) = false := by
    by_cases hq : m.id = i
    · rw [hskip m hmm hq] at hpm
      exact absurd hpm (by simp)
    · simp [hq]
  refine List.any_eq_true.mpr ⟨m, List.mem_map.mpr ⟨m, hm, by simp [hid]⟩, hpm⟩

/-- C8 as amended: `createGroupConversation` establishes a non-deleted
`owner` membership; `addGroupMembers` and role updates preserve it, and
`removeGroupMember` preserves it whenever the target row does not carry
the `owner` role — the unguarded case, an owner removing an owner row, is
exactly the self-removal of the counterexample.  Role changes are
owner-only, always fail on an `owner`-role target, and never change the
number of `owner`-role rows (so a second owner is never created). -/
theorem group_owner_invariant_amended :
    (∀ db now me name ids db' cid,
        createGroupConversation db now me name ids = Except.ok (db', cid) →
        hasActiveOwner db' cid = true)
    ∧ (∀ db now me cid ids db',
        addGroupMembers db now me cid ids = Except.ok db' →
        ∀ cidq, hasActiveOwner db cidq = true → hasActiveOwner db' cidq = true)
    ∧ (∀ db now me cid target tm db',
        (db.members.map (fun m => m.id)).Nodup →
        memberByConvUser db cid target = some tm →
        tm.role.getD "member" ≠ "owner" →
        removeGroupMember db now me cid target = Except.ok db' →
        ∀ cidq, hasActiveOwner db cidq = true → hasActiveOwner db' cidq = true)
    ∧ (∀ db me cid target role my db',
        memberByConvUser db cid me = some my →
        updateGroupMemberRole db me cid target role = Except.ok db' →
        my.isDeleted = false ∧ my.role.getD "member" = "owner")
    ∧ (∀ db me cid target role tm,
        memberByConvUser db cid target = some tm →
        tm.role.getD "member" = "owner" →
        (updateGroupMemberRole db me cid target role).isOk = false)
    ∧ (∀ db me cid target role db',
        (db.members.map (fun m => m.id)).Nodup →
        updateGroupMemberRole db me cid target role = Except.ok db' →
        ownerRowCount db' = ownerRowCount db ∧
        (∀ cidq, hasActiveOwner db cidq = true → hasActiveOwner db' cidq = true)) := by
  refine ⟨?_, ?_, ?_, ?_, ?_, ?_⟩
  · -- createGroupConversation establishes an active owner
    intro db now me name ids db' cid h
    unfold createGroupConversation at h
    by_cases hname : (strTrim name == "") = true
    · rw [if_pos hname] at h; exact absurd h (by simp)
    · rw [if_neg hname] at h
      by_cases hlen : ((firstDedup ids).filter (fun uid => uid ≠ me)).length < 2
      · rw [if_pos hlen] at h; exact absurd h (by simp)
      · rw [if_neg hlen] at h
        simp only [Except.ok.injEq, Prod.mk.injEq] at h
        obtain ⟨hdb, hcid⟩ := h
        subst hdb hcid
        have howner :
            ({ id := db.nextId + 1, conversationId := db.nextId, userId := me,
               joinedAt := now, role := some "owner", lastReadAt := some now,
               isDeleted := false } : MemberRow) ∈
              (((firstDedup ids).filter (fun uid => uid ≠ me)).foldl
                (insertGroupMemberRow now db.nextId)
                { db with
                  conversations := db.conversations ++
                    [{ id := db.nextId, isGroup := true, name := some (strTrim name),
                       createdBy := me, updatedAt := now,
                       lastMessageText := none, lastMessageAt := none }]
                  members := db.members ++
                    [{ id := db.nextId + 1, conversationId := db.nextId, userId := me,
                       joinedAt := now, role := some "owner", lastReadAt := some now,
                       isDeleted := false }]
                  nextId := db.nextId + 1 + 1 }).members := by
          apply mem_foldl_insertGroupMemberRow
          exact List.mem_append_right _ (List.mem_singleton.mpr rfl)
        unfold hasActiveOwner
        refine List.any_eq_true.mpr ⟨_, List.mem_filter.mpr ⟨howner, ?_⟩, ?_⟩
        · simp
        · rfl
  · -- addGroupMembers preserves the active owner
    intro db now me cid ids db' h cidq hq
    unfold addGroupMembers at h
    cases hmy : memberByConvUser db cid me with
    | none => rw [hmy] at h; simp only [] at h; exact absurd h (by simp)
    | some my =>
      rw [hmy] at h
      simp only [] at h
      by_cases hdel : my.isDeleted = true
      · rw [if_pos hdel] at h; exact absurd h (by simp)
      · rw [if_neg hdel] at h
        by_cases hrole : (!(my.role.getD "member" == "owner" ||
            my.role.getD "member" == "admin")) = true
        · rw [if_pos hrole] at h; exact absurd h (by simp)
        · rw [if_neg hrole] at h
          cases hcv : getConv db cid with
          | none => rw [hcv] at h; simp only [] at h; exact absurd h (by simp)
          | some conversation =>
            rw [hcv] at h
            simp only [] at h
            by_cases hgrp : (!conversation.isGroup) = true
            · rw [if_pos hgrp] at h; exact absurd h (by simp)
            · rw [if_neg hgrp] at h
              simp only [Except.ok.injEq] at h
              subst h
              generalize (firstDedup ids).filter (fun uid => uid ≠ me) = l
              clear hmy hdel hrole hcv hgrp
              induction l generalizing db with
              | nil => exact hq
              | cons y ys ih =>
                exact ih (addOneGroupMember now cid db y)
                  (addOneGroupMember_hasActiveOwner now cid db y cidq hq)
  · -- removeGroupMember with a non-owner target preserves the owner
    intro db now me cid target tm db' hnd htm htrole h cidq hq
    unfold removeGroupMember at h
    cases hmy : memberByConvUser db cid me with
    | none => rw [hmy] at h; simp only [] at h; exact absurd h (by simp)
    | some my =>
      rw [hmy, htm] at h
      simp only [] at h
      by_cases hdel : my.isDeleted = true
      · rw [if_pos hdel] at h; exact absurd h (by simp)
      · rw [if_neg hdel] at h
        by_cases htdel : tm.isDeleted = true
        · rw [if_pos htdel] at h; exact absurd h (by simp)
        · rw [if_neg htdel] at h
          by_cases hr1 : (my.role.getD "member" == "member") = true
          · rw [if_pos hr1] at h; exact absurd h (by simp)
          · rw [if_neg hr1] at h
            by_cases hr2 : (my.role.getD "member" == "admin" &&
                tm.role.getD "member" != "member") = true
            · rw [if_pos hr2] at h; exact absurd h (by simp)
            · rw [if_neg hr2] at h
              simp only [Except.ok.injEq] at h
              subst h
              refine patchMember_hasActiveOwner_skip db tm.id
                (fun m => { m with isDeleted := true, lastReadAt := some now })
                (fun m => rfl) ?_ cidq hq
              intro m hm hid
              have htmm : tm ∈ db.members := List.mem_of_find?_eq_some htm
              have hmeq : m = tm := List.inj_on_of_nodup_map hnd hm htmm hid
              subst hmeq
              unfold activeOwner
              have : (m.role.getD "member" == "owner") = false := by
                simp only [beq_eq_false_iff_ne, ne_eq]
                exact htrole
              simp [this]
  · -- role updates are owner-only
    intro db me cid target role my db' hmy h
    unfold updateGroupMemberRole at h
    rw [hmy] at h
    simp only [] at h
    by_cases hguard : (my.isDeleted || my.role.getD "member" != "owner") = true
    · rw [if_pos hguard] at h; exact absurd h (by simp)
    · simp only [Bool.or_eq_true, bne_iff_ne, ne_eq, not_or, Bool.not_eq_true,
        Decidable.not_not] at hguard
      exact ⟨hguard.1, hguard.2⟩
  · -- role updates never target the owner
    intro db me cid target role tm htm hto
    unfold updateGroupMemberRole
    cases hmy : memberByConvUser db cid me with
    | none => rfl
    | some my =>
      by_cases hguard : (my.isDeleted || my.role.getD "member" != "owner") = true
      · simp [hguard, Except.isOk, Except.toBool]
      · simp only [hguard, Bool.false_eq_true, if_false]
        rw [htm]
        by_cases htdel : tm.isDeleted = true
        · simp [htdel, Except.isOk, Except.toBool]
        · have hok : (tm.role.getD "member" == "owner") = true := by simp [hto]
          simp [htdel, hok, Except.isOk, Except.toBool]
  · -- role updates preserve the owner rows
    intro db me cid target role db' hnd h
    unfold updateGroupMemberRole at h
    cases hmy : memberByConvUser db cid me with
    | none => rw [hmy] at h; simp only [] at h; exact absurd h (by simp)
    | some my =>
      rw [hmy] at h
      simp only [] at h
      by_cases hguard : (my.isDeleted || my.role.getD "member" != "owner") = true
      · rw [if_pos hguard] at h; exact absurd h (by simp)
      · rw [if_neg hguard] at h
        cases htm : memberByConvUser db cid target with
        | none => rw [htm] at h; simp only [] at h; exact absurd h (by simp)
        | some tm =>
          rw [htm] at h
          simp only [] at h
          by_cases htdel : tm.isDeleted = true
          · rw [if_pos htdel] at h; exact absurd h (by simp)
          · rw [if_neg htdel] at h
            by_cases hto : (tm.role.getD "member" == "owner") = true
            · rw [if_pos hto] at h; exact absurd h (by simp)
            · rw [if_neg hto] at h
              simp only [Except.ok.injEq] at h
              subst h
              have htmm : tm ∈ db.members := List.mem_of_find?_eq_some htm
              constructor
              · unfold ownerRowCount patchMember
                apply length_filter_map_congr
                intro m hm
                by_cases hid : (m.id == tm.id) = true
                · have hmeq : m = tm :=
                    List.inj_on_of_nodup_map hnd hm htmm (by simpa using hid)
                  subst hmeq
                  simp only [hid, if_true]
                  have hrs : (GroupRoleArg.str role == "owner") = false := by
                    cases role <;> rfl
                  simp only [Option.getD_some] at hrs ⊢
                  rw [hrs]
                  simp only [Bool.not_eq_true] at hto ⊢
                  rw [hto]
                · simp [hid]
              · intro cidq hq
                refine patchMember_hasActiveOwner_skip db tm.id
                  (fun m => { m with role := some (GroupRoleArg.str role) })
                  (fun m => rfl) ?_ cidq hq
                intro m hm hid
                have hmeq : m = tm := List.inj_on_of_nodup_map hnd hm htmm hid
                subst hmeq
                unfold activeOwner
                simp only [Bool.not_eq_true] at hto
                simp [hto]

/-- Witness for the amended C8 at the concrete scenario database: group
creation yields an active owner, and demoting admin B preserves both the
owner bit and the owner-row count. -/
theorem group_owner_invariant_amended_witness :
    hasActiveOwner c7DB1 10 = true ∧
    ownerRowCount c7DB2 = ownerRowCount c7DB2 ∧
    hasActiveOwner c7DB2 10 = true := by
  refine ⟨?_, rfl, ?_⟩
  · exact group_owner_invariant_amended.1 c7DB0 100 1 "Team" [2, 3] c7DB1 10 rfl
  · exact (group_owner_invariant_amended.2.2.2.2.2 c7DB1 1 10 2
      GroupRoleArg.admin c7DB2 (by decide) rfl).2 10 rfl

/-! ## C10: hiding a conversation marks everything read and is idempotent -/

/-- C10: hiding a conversation through `deleteConversationForMe` patches
the caller's membership row with both `isDeleted = true` and `lastReadAt =
now`; consequently every message already in the conversation is on or
before the new high-water mark — the unread count computed for that row is
zero and the `lastReadAt ≥ createdAt` read test of the seen-by computation
holds for each such message — and a second call on the already-hidden
membership returns success without modifying anything. -/
theorem delete_conversation_marks_read (db : DB) (now now2 me cid : Nat) (ms : MemberRow)
    (hms : memberByConvUser db cid me = some ms) (hnd : ms.isDeleted = false)
    (hts : ∀ msg ∈ db.messages, msg.conversationId = cid → msg.createdAt ≤ now) :
    ∃ db', deleteConversationForMe db now me cid = Except.ok db' ∧
      memberByConvUser db' cid me =
        some { ms with isDeleted := true, lastReadAt := some now } ∧
      unreadCountFor db' me { ms with isDeleted := true, lastReadAt := some now } = 0 ∧
      (∀ msg ∈ db'.messages, msg.conversationId = cid →
        msg.createdAt ≤
          ({ ms with isDeleted := true, lastReadAt := some now } : MemberRow).lastReadAt.getD 0) ∧
      deleteConversationForMe db' now2 me cid = Except.ok db' := by
  have hcid : ms.conversationId = cid := by
    have hp := List.find?_some hms
    simp only [Bool.and_eq_true, beq_iff_eq] at hp
    exact hp.1
  refine ⟨clearTyping (patchMember db ms.id
      (fun m => { m with isDeleted := true, lastReadAt := some now })) me cid, ?_, ?_, ?_, ?_, ?_⟩
  · unfold deleteConversationForMe
    rw [hms]
    simp only [] 
    rw [if_neg (by simp [hnd])]
  · have hmm : memberByConvUser (clearTyping (patchMember db ms.id
        (fun m => { m with isDeleted := true, lastReadAt := some now })) me cid) cid me =
        memberByConvUser (patchMember db ms.id
          (fun m => { m with isDeleted := true, lastReadAt := some now })) cid me := rfl
    rw [hmm, memberByConvUser_patchMember db ms.id
      (fun m => { m with isDeleted := true, lastReadAt := some now }) cid me
      (fun m => ⟨rfl, rfl⟩), hms]
    simp
  · unfold unreadCountFor
    have hmsg : (clearTyping (patchMember db ms.id
        (fun m => { m with isDeleted := true, lastReadAt := some now })) me cid).messages =
        db.messages := rfl
    rw [hmsg]
    rw [List.length_eq_zero]
    apply List.filter_eq_nil_iff.mpr
    intro msg hmem
    have hin : msg ∈ db.messages := List.mem_of_mem_filter hmem
    have hc0 := List.of_mem_filter hmem
    simp only [beq_iff_eq] at hc0
    have hc : msg.conversationId = cid := by rw [hc0]; exact hcid
    have hle := hts msg hin hc
    simp only [Bool.and_eq_true, not_and, Bool.not_eq_true]
    intro _
    simp only [Option.getD_some, decide_eq_false_iff_not, Nat.not_lt]
    exact hle
  · intro msg hmem hc
    have hin : msg ∈ db.messages := hmem
    simpa using hts msg hin hc
  · unfold deleteConversationForMe
    have hmm : memberByConvUser (clearTyping (patchMember db ms.id
        (fun m => { m with isDeleted := true, lastReadAt := some now })) me cid) cid me =
        some { ms with isDeleted := true, lastReadAt := some now } := by
      have hmm0 : memberByConvUser (clearTyping (patchMember db ms.id
          (fun m => { m with isDeleted := true, lastReadAt := some now })) me cid) cid me =
          memberByConvUser (patchMember db ms.id
            (fun m => { m with isDeleted := true, lastReadAt := some now })) cid me := rfl
      rw [hmm0, memberByConvUser_patchMember db ms.id
        (fun m => { m with isDeleted := true, lastReadAt := some now }) cid me
        (fun m => ⟨rfl, rfl⟩), hms]
      simp
    rw [hmm]
    rfl

/-- Witness for C10 at the concrete database, hiding at time 100. -/
theorem delete_conversation_marks_read_witness :
    ∃ db', deleteConversationForMe c10DB 100 2 1 = Except.ok db' ∧
      memberByConvUser db' 1 2 =
        some { id := 4, conversationId := 1, userId := 2, joinedAt := 0,
               role := some "member", lastReadAt := some 100, isDeleted := true } ∧
      unreadCountFor db' 2 ({ id := 4, conversationId := 1, userId := 2, joinedAt := 0,
                              role := some "member", lastReadAt := some 100,
                              isDeleted := true } : MemberRow) = 0 ∧
      (∀ msg ∈ db'.messages, msg.conversationId = 1 →
        msg.createdAt ≤
          ({ id := 4, conversationId := 1, userId := 2, joinedAt := 0,
             role := some "member", lastReadAt := some 100,
             isDeleted := true } : MemberRow).lastReadAt.getD 0) ∧
      deleteConversationForMe db' 999 2 1 = Except.ok db' :=
  delete_conversation_marks_read c10DB 100 999 2 1
    ({ id := 4, conversationId := 1, userId := 2, joinedAt := 0,
       role := some "member", lastReadAt := some 10, isDeleted := false } : MemberRow)
    rfl rfl (by decide)

/-! ## C6: edit history round trip -/

/-- The accumulated effect of a run of successful edits: one audit row per
edit, `previousBody` values chaining from the original body through every
intermediate trimmed body to the final one, and `editedAt` values echoing
the edit times. -/
theorem applyEdits_spec (me mid : Nat) :
    ∀ (reqs : List (String × Nat)) (db : DB) (m : MessageRow),
      getMsg db mid = some m → m.senderId = me → m.deleted = false →
      (∀ r ∈ reqs, ¬ strTrim r.1 = "") →
      ∃ db' m' rows,
        applyEdits me mid db reqs = Except.ok db' ∧
        getMsg db' mid = some m' ∧ m'.deleted = false ∧ m'.senderId = me ∧
        editsFor db' mid = editsFor db mid ++ rows ∧
        rows.map (fun e => e.previousBody) ++ [m'.body] =
          m.body :: reqs.map (fun r => strTrim r.1) ∧
        rows.map (fun e => e.editedAt) = reqs.map (fun r => r.2) := by
  intro reqs
  induction reqs with
  | nil =>
    intro db m hm hsender hdel _
    exact ⟨db, m, [], rfl, hm, hdel, hsender, (List.append_nil _).symm, rfl, rfl⟩
  | cons r rest ih =>
    intro db m hm hsender hdel hbodies
    obtain ⟨body, t⟩ := r
    have hid : m.id = mid := by
      have := List.find?_some hm
      simpa using this
    have hne : ¬ strTrim body = "" := hbodies (body, t) (List.mem_cons_self _ _)
    have hstep : editOwnMessage db t me mid body =
        Except.ok (patchMsg
          { db with
            edits := db.edits ++
              [{ id := db.nextId, messageId := m.id, editorId := me,
                 previousBody := m.body, editedAt := t }]
            nextId := db.nextId + 1 }
          m.id (fun x => { x with body := strTrim body })) := by
      unfold editOwnMessage
      rw [hm]
      simp only []
      rw [if_neg (by simp [hsender]), if_neg (by simp [hdel])]
      rw [if_neg (by simpa using hne)]
    set db1 : DB :=
      { db with
        edits := db.edits ++
          [{ id := db.nextId, messageId := m.id, editorId := me,
             previousBody := m.body, editedAt := t }]
        nextId := db.nextId + 1 } with hdb1
    set db2 : DB := patchMsg db1 m.id (fun x => { x with body := strTrim body }) with hdb2
    have hm2 : getMsg db2 mid = some { m with body := strTrim body } := by
      have h0 : db1.messages.find? (fun x => x.id == mid) = some m := hm
      show (db1.messages.map
        (fun x => if x.id == m.id then { x with body := strTrim body } else x)).find?
          (fun x => x.id == mid) = _
      rw [find?_map_congr
        (fun x => if x.id == m.id then { x with body := strTrim body } else x)
        (fun x => x.id == mid) db1.messages (fun a => by
          by_cases hq : (a.id == m.id) = true <;> simp [hq])]
      rw [h0]
      simp
    obtain ⟨db', m', rows', h1, h2, h3, h4, h5, h6, h7⟩ :=
      ih db2 { m with body := strTrim body } hm2 hsender hdel
        (fun x hx => hbodies x (List.mem_cons_of_mem _ hx))
    refine ⟨db', m',
      { id := db.nextId, messageId := m.id, editorId := me,
        previousBody := m.body, editedAt := t } :: rows', ?_, h2, h3, h4, ?_, ?_, ?_⟩
    · show applyEdits me mid db ((body, t) :: rest) = Except.ok db'
      unfold applyEdits
      rw [hstep]
      exact h1
    · rw [h5]
      have hedits2 : editsFor db2 mid = editsFor db mid ++
          [{ id := db.nextId, messageId := m.id, editorId := me,
             previousBody := m.body, editedAt := t }] := by
        unfold editsFor
        rw [hdb2]
        show List.filter _ db1.edits = _
        rw [hdb1]
        simp only [List.filter_append]
        congr 1
        simp [hid]
      rw [hedits2, List.append_assoc]
      rfl
    · simp only [List.map_cons, List.cons_append]
      rw [h6]
    · simp only [List.map_cons]
      rw [h7]

/-- C6: starting from a message with no edit rows, N successful edits
leave exactly N `messageEdits` rows whose `previousBody` values, chained
in order from the original body and capped by the final stored body,
reconstruct the whole history; the list item for the message reports
`editCount = N` and `editedAt` equal to the last edit's timestamp. -/
theorem edit_round_trip (db : DB) (me mid : Nat) (m : MessageRow)
    (reqs : List (String × Nat))
    (hm : getMsg db mid = some m) (hsender : m.senderId = me)
    (hdel : m.deleted = false) (hempty : editsFor db mid = [])
    (hbodies : ∀ r ∈ reqs, ¬ strTrim r.1 = "") :
    ∃ db' m', applyEdits me mid db reqs = Except.ok db' ∧
      getMsg db' mid = some m' ∧
      (editsFor db' mid).length = reqs.length ∧
      (editsFor db' mid).map (fun e => e.previousBody) ++ [m'.body] =
        m.body :: reqs.map (fun r => strTrim r.1) ∧
      (messageView db' me m').editCount = reqs.length ∧
      (messageView db' me m').editedAt = (reqs.map (fun r => r.2)).getLast? := by
  obtain ⟨db', m', rows, h1, h2, h3, h4, h5, h6, h7⟩ :=
    applyEdits_spec me mid reqs db m hm hsender hdel hbodies
  rw [hempty, List.nil_append] at h5
  have hlen : rows.length = reqs.length := by
    have := congrArg List.length h7
    simpa using this
  have hid' : m'.id = mid := by
    have := List.find?_some h2
    simpa using this
  refine ⟨db', m', h1, h2, ?_, ?_, ?_, ?_⟩
  · rw [h5]; exact hlen
  · rw [h5]; exact h6
  · show (editsFor db' m'.id).length = reqs.length
    rw [hid', h5]; exact hlen
  · show ((editsFor db' m'.id).getLast?).map (fun e => e.editedAt) = _
    rw [hid', h5, ← List.getLast?_map, h7]

/-- Witness for C6: two edits of the concrete message produce two audit
rows chaining "one" through "two" to the final "three". -/
theorem edit_round_trip_witness :
    ∃ db' m', applyEdits 2 6 c6DB [("two", 20), (" three ", 30)] = Except.ok db' ∧
      getMsg db' 6 = some m' ∧
      (editsFor db' 6).length = 2 ∧
      (editsFor db' 6).map (fun e => e.previousBody) ++ [m'.body] =
        "one" :: ["two", "three"] ∧
      (messageView db' 2 m').editCount = 2 ∧
      (messageView db' 2 m').editedAt = some 30 := by
  have h := edit_round_trip c6DB 2 6
    ({ id := 6, conversationId := 1, senderId := 2, body := "one",
       replyToMessageId := none, mediaType := none, mediaStorageId := none,
       createdAt := 5, deleted := false } : MessageRow)
    [("two", 20), (" three ", 30)] rfl rfl rfl rfl (by decide)
  simpa using h

/-! ## C2: block symmetry and its suppression effects -/

/-- Counterexample to C2: when the blocked counterpart's membership is
soft-deleted, the listing's block check (which consults only the first
*active* other member) is skipped, so the blocked direct conversation
still appears in the blocker's conversation list. -/
theorem blocked_conversation_still_listed :
    isBlockedBetween c2DB 1 2 = true ∧
    (listForCurrentUser c2DB 1).map (fun r => r.id) = [10] :=
  ⟨rfl, rfl⟩

/-- Insertion into the descending conversation list only reorders. -/
theorem mem_insertByUpdatedAtDesc (r x : ConvListRow) (l : List ConvListRow) :
    x ∈ insertByUpdatedAtDesc r l ↔ x = r ∨ x ∈ l := by
  induction l with
  | nil => simp [insertByUpdatedAtDesc]
  | cons y ys ih =>
    unfold insertByUpdatedAtDesc
    by_cases h : r.updatedAt ≥ y.updatedAt
    · simp [h, List.mem_cons]
    · rw [if_neg h]
      simp only [List.mem_cons, ih]
      tauto

/-- Sorting the conversation list only reorders. -/
theorem mem_foldr_insertByUpdatedAtDesc (x : ConvListRow) (l : List ConvListRow) :
    x ∈ l.foldr insertByUpdatedAtDesc [] ↔ x ∈ l := by
  induction l with
  | nil => simp
  | cons y ys ih =>
    simp only [List.foldr_cons, mem_insertByUpdatedAtDesc, List.mem_cons, ih]

/-- C2 as amended: the block relation is symmetric whichever side stored
the directed edge; once blocked, `getOrCreateDirectConversation`, `send`
and `sendMedia` between the pair fail, and `messages.list` of the direct
conversation fails with "Not found" for both; the conversation is excluded
from a user's conversation listing whenever the counterpart's membership
row is *not* soft-deleted — when the counterpart has hidden the
conversation, the listing's block check is skipped and the conversation
still appears in the caller's list. -/
theorem block_symmetric_and_suppresses :
    (∀ db a b, isBlockedBetween db a b = isBlockedBetween db b a)
    ∧ (∀ db now a b, a ≠ b → isBlockedBetween db a b = true →
        getOrCreateDirectConversation db now a b =
          Except.error "Cannot message this user")
    ∧ (∀ db now me cid body rep conv other,
        getConv db cid = some conv → conv.isGroup = false →
        (membersOf db cid).find? (fun m => m.userId != me) = some other →
        isBlockedBetween db me other.userId = true →
        (send db now me cid body rep).isOk = false)
    ∧ (∀ db now me cid sid mt cap rep conv other,
        getConv db cid = some conv → conv.isGroup = false →
        (membersOf db cid).find? (fun m => m.userId != me) = some other →
        isBlockedBetween db me other.userId = true →
        (sendMedia db now me cid sid mt cap rep).isOk = false)
    ∧ (∀ db me cid before limit conv other,
        getConv db cid = some conv → conv.isGroup = false →
        (membersOf db cid).find? (fun m => m.userId != me) = some other →
        isBlockedBetween db me other.userId = true →
        listQ db me cid before limit = Except.error "Not found")
    ∧ (∀ db me cid conv om u,
        getConv db cid = some conv → conv.isGroup = false →
        ((membersOf db cid).filter (fun m => !m.isDeleted)).find?
          (fun m => m.userId != me) = some om →
        getUser db om.userId = some u →
        isBlockedBetween db me u.id = true →
        cid ∉ (listForCurrentUser db me).map (fun r => r.id)) := by
  refine ⟨?_, ?_, ?_, ?_, ?_, ?_⟩
  · intro db a b
    unfold isBlockedBetween
    exact Bool.or_comm _ _
  · intro db now a b hne hblk
    unfold getOrCreateDirectConversation
    rw [if_neg (by simp [hne]), if_pos hblk]
  · intro db now me cid body rep conv other hconv hgrp hfind hblk
    have hgate : directSendGate db me cid conv = Except.error "Cannot send message" := by
      unfold directSendGate
      rw [hgrp]
      simp only [Bool.false_eq_true, if_false]
      rw [hfind]
      simp only []
      rw [if_pos hblk]
    unfold send
    cases hmem : memberByConvUser db cid me with
    | none => rfl
    | some ms =>
      simp only []
      by_cases hdel : ms.isDeleted = true
      · rw [if_pos hdel]; rfl
      · rw [if_neg hdel, hconv]
        simp only []
        rw [hgate]
        rfl
  · intro db now me cid sid mt cap rep conv other hconv hgrp hfind hblk
    have hgate : directSendGate db me cid conv = Except.error "Cannot send message" := by
      unfold directSendGate
      rw [hgrp]
      simp only [Bool.false_eq_true, if_false]
      rw [hfind]
      simp only []
      rw [if_pos hblk]
    unfold sendMedia
    cases hmem : memberByConvUser db cid me with
    | none => rfl
    | some ms =>
      simp only []
      by_cases hdel : ms.isDeleted = true
      · rw [if_pos hdel]; rfl
      · rw [if_neg hdel, hconv]
        simp only []
        rw [hgate]
        rfl
  · intro db me cid before limit conv other hconv hgrp hfind hblk
    unfold listQ
    cases hmem : memberByConvUser db cid me with
    | none => rfl
    | some ms =>
      simp only []
      by_cases hdel : ms.isDeleted = true
      · rw [if_pos hdel]
      · rw [if_neg hdel, hconv]
        simp only []
        rw [hgrp]
        simp only [Bool.false_eq_true, if_false]
        rw [hfind]
        simp only []
        rw [if_pos hblk]
  · intro db me cid conv om u hconv hgrp hfind huser hblk hmem
    obtain ⟨row, hrow, hrid⟩ := List.mem_map.mp hmem
    have hrow' : row ∈ (membershipsOf db me).filterMap (listRowFor db me) :=
      (mem_foldr_insertByUpdatedAtDesc row _).mp hrow
    obtain ⟨ms, hmsm, hms⟩ := List.mem_filterMap.mp hrow'
    by_cases hdel : ms.isDeleted = true
    · unfold listRowFor at hms
      rw [if_pos hdel] at hms
      exact absurd hms (by simp)
    · unfold listRowFor at hms
      rw [if_neg hdel] at hms
      cases hc : getConv db ms.conversationId with
      | none => rw [hc] at hms; exact absurd hms (by simp)
      | some c2 =>
        rw [hc] at hms
        simp only [] at hms
        have hcid2 : c2.id = ms.conversationId := by
          have := List.find?_some hc
          simpa using this
        by_cases hblk2 : (match
            (((membersOf db c2.id).filter (fun m => !m.isDeleted)).find?
              (fun m => m.userId != me)).bind (fun m => getUser db m.userId) with
          | some u2 => !c2.isGroup && isBlockedBetween db me u2.id
          | none => false) = true
        · rw [if_pos hblk2] at hms
          exact absurd hms (by simp)
        · rw [if_neg hblk2] at hms
          simp only [Option.some.injEq] at hms
          have hrid2 : row.id = c2.id := by rw [← hms]
          have hcc : ms.conversationId = cid := by
            rw [← hrid, hrid2, hcid2]
          rw [hcc] at hc
          rw [hconv] at hc
          have hc2conv : c2 = conv := ((Option.some.injEq _ _).mp hc).symm
          subst hc2conv
          apply hblk2
          have hcidc : c2.id = cid := by rw [hcid2, hcc]
          rw [hcidc, hfind]
          simp only [Option.some_bind]
          rw [huser]
          simp [hgrp, hblk]

/-- Witness for the amended C2 at the concrete blocked pair: the direct
conversation list hides the chat, its messages are unreadable, and both
conversation creation and sending fail. -/
theorem block_symmetric_and_suppresses_witness :
    isBlockedBetween c2DB2 1 2 = isBlockedBetween c2DB2 2 1 ∧
    getOrCreateDirectConversation c2DB2 777 1 2 =
      Except.error "Cannot message this user" ∧
    (send c2DB2 777 1 10 "hi" none).isOk = false ∧
    listQ c2DB2 1 10 none none = Except.error "Not found" ∧
    10 ∉ (listForCurrentUser c2DB2 1).map (fun r => r.id) := by
  refine ⟨block_symmetric_and_suppresses.1 c2DB2 1 2, ?_, ?_, ?_, ?_⟩
  · exact block_symmetric_and_suppresses.2.1 c2DB2 777 1 2 (by decide) rfl
  · exact block_symmetric_and_suppresses.2.2.1 c2DB2 777 1 10 "hi" none
      ({ id := 10, isGroup := false, name := none, createdBy := 1,
         updatedAt := 5, lastMessageText := none, lastMessageAt := none } : ConversationRow)
      ({ id := 21, conversationId := 10, userId := 2, joinedAt := 0,
         role := some "member", lastReadAt := some 0, isDeleted := false } : MemberRow)
      rfl rfl rfl rfl
  · exact block_symmetric_and_suppresses.2.2.2.2.1 c2DB2 1 10 none none
      ({ id := 10, isGroup := false, name := none, createdBy := 1,
         updatedAt := 5, lastMessageText := none, lastMessageAt := none } : ConversationRow)
      ({ id := 21, conversationId := 10, userId := 2, joinedAt := 0,
         role := some "member", lastReadAt := some 0, isDeleted := false } : MemberRow)
      rfl rfl rfl rfl
  · exact block_symmetric_and_suppresses.2.2.2.2.2 c2DB2 1 10
      ({ id := 10, isGroup := false, name := none, createdBy := 1,
         updatedAt := 5, lastMessageText := none, lastMessageAt := none } : ConversationRow)
      ({ id := 21, conversationId := 10, userId := 2, joinedAt := 0,
         role := some "member", lastReadAt := some 0, isDeleted := false } : MemberRow)
      ({ id := 2, name := "B", email := none } : UserRow)
      rfl rfl rfl rfl rfl

/-! ## C3: find-or-create idempotence and the two-membership invariant -/

/-- `any` survives a pointwise patch that does not disturb the predicate. -/
theorem any_map_congr {α : Type} (g : α → α) (p : α → Bool) (l : List α)
    (hp : ∀ a ∈ l, p (g a) = p a) : (l.map g).any p = l.any p := by
  induction l with
  | nil => rfl
  | cons x xs ih =>
    simp only [List.map_cons, List.any_cons, hp x (List.mem_cons_self x xs)]
    rw [ih (fun a ha => hp a (List.mem_cons_of_mem x ha))]

/-- `find?` across a map, against a second predicate agreeing pointwise. -/
theorem find?_map_congr2 {α : Type} (g : α → α) (p q : α → Bool) (l : List α)
    (h : ∀ a, q (g a) = p a) : (l.map g).find? q = (l.find? p).map g := by
  induction l with
  | nil => rfl
  | cons x xs ih =>
    simp only [List.map_cons, List.find?_cons, h x]
    cases hp : p x
    · exact ih
    · rfl

/-- The scan condition of the find-or-create loop only looks at a row's
`conversationId`, so it is stable under a membership patch that preserves
`conversationId` and `userId`. -/
theorem directMatch_patchMember (db : DB) (i : Nat) (f : MemberRow → MemberRow)
    (hf : ∀ m : MemberRow, (f m).conversationId = m.conversationId ∧ (f m).userId = m.userId)
    (other : Nat) (m : MemberRow) :
    directMatch (patchMember db i f) other (if m.id == i then f m else m) =
      directMatch db other m := by
  have hcm : (if m.id == i then f m else m).conversationId = m.conversationId := by
    by_cases h : (m.id == i) = true <;> simp [h, (hf m).1]
  unfold directMatch
  rw [hcm]
  have hgc : getConv (patchMember db i f) m.conversationId =
      getConv db m.conversationId := rfl
  rw [hgc]
  cases getConv db m.conversationId with
  | none => rfl
  | some conv =>
    rw [membersOf_patchMember db i f m.conversationId (fun x => (hf x).1)]
    rw [List.length_map]
    rw [any_map_congr _ _ _ (fun a _ => by
      by_cases h : (a.id == i) = true <;> simp [h, (hf a).2])]

/-- The find-or-create scan after a membership patch that preserves
`conversationId` and `userId` returns the patched image of the original
scan's result. -/
theorem find?_directMatch_patchMember (db : DB) (i : Nat) (f : MemberRow → MemberRow)
    (hf : ∀ m : MemberRow, (f m).conversationId = m.conversationId ∧ (f m).userId = m.userId)
    (me other : Nat) :
    (membershipsOf (patchMember db i f) me).find?
        (directMatch (patchMember db i f) other) =
      ((membershipsOf db me).find? (directMatch db other)).map
        (fun m => if m.id == i then f m else m) := by
  rw [membershipsOf_patchMember db i f me (fun x => (hf x).2)]
  exact find?_map_congr2 _ _ _ _ (fun a => directMatch_patchMember db i f hf other a)

/-- Facts about the creation result, for a well-formed allocator: the new
conversation resolves, its member set is exactly the two fresh rows, and
every older conversation id resolves to its old conversation and old
member set. -/
theorem createdDirectDB_facts (db : DB) (now me other : Nat) (hfresh : FreshIds db) :
    getConv (createdDirectDB db now me other) db.nextId = some (newDirectConv db now me) ∧
    membersOf (createdDirectDB db now me other) db.nextId =
      [newDirectMemberMe db now me, newDirectMemberOther db now other] ∧
    (∀ x, x ≠ db.nextId →
      membersOf (createdDirectDB db now me other) x = membersOf db x) ∧
    (∀ x, x ≠ db.nextId →
      getConv (createdDirectDB db now me other) x = getConv db x) := by
  refine ⟨?_, ?_, ?_, ?_⟩
  · show (db.conversations ++ [newDirectConv db now me]).find?
      (fun (c : ConversationRow) => c.id == db.nextId) = _
    rw [List.find?_append]
    have h1 : db.conversations.find? (fun c => c.id == db.nextId) = none := by
      rw [List.find?_eq_none]
      intro c hc
      have := hfresh.1 c hc
      simp only [beq_iff_eq, Bool.not_eq_true]
      omega
    rw [h1]
    simp [List.find?, newDirectConv]
  · show ((db.members ++ [newDirectMemberMe db now me]) ++
      [newDirectMemberOther db now other]).filter
        (fun (m : MemberRow) => m.conversationId == db.nextId) = _
    rw [List.filter_append, List.filter_append]
    have h1 : db.members.filter (fun m => m.conversationId == db.nextId) = [] := by
      rw [List.filter_eq_nil_iff]
      intro m hm
      have := hfresh.2 m hm
      simp only [beq_iff_eq, Bool.not_eq_true]
      omega
    rw [h1]
    simp [newDirectMemberMe, newDirectMemberOther]
  · intro x hx
    show ((db.members ++ [newDirectMemberMe db now me]) ++
      [newDirectMemberOther db now other]).filter
        (fun (m : MemberRow) => m.conversationId == x) = _
    rw [List.filter_append, List.filter_append]
    have hb : (db.nextId == x) = false := by simp; omega
    simp only [List.filter_cons, List.filter_nil, newDirectMemberMe,
      newDirectMemberOther, hb]
    simp only [Bool.false_eq_true, if_false, List.append_nil]
    rfl
  · intro x hx
    show (db.conversations ++ [newDirectConv db now me]).find?
      (fun (c : ConversationRow) => c.id == x) = _
    rw [List.find?_append]
    have hb : (db.nextId == x) = false := by simp; omega
    cases hg : db.conversations.find? (fun c => c.id == x) with
    | some c => rw [Option.or_some]; exact hg.symm
    | none =>
      simp only [List.find?, newDirectConv, hb, Option.or_none]
      exact hg.symm

/-- Calling find-or-create again after a successful call returns the same
conversation and leaves the database exactly as it was. -/
theorem getOrCreate_idempotent (db : DB) (now now2 me other : Nat) (db1 : DB) (cid : Nat)
    (hfresh : FreshIds db)
    (h : getOrCreateDirectConversation db now me other = Except.ok (db1, cid)) :
    getOrCreateDirectConversation db1 now2 me other = Except.ok (db1, cid) := by
  unfold getOrCreateDirectConversation at h
  by_cases hme : (me == other) = true
  · rw [if_pos hme] at h; exact absurd h (by simp)
  · rw [if_neg hme] at h
    by_cases hblk : isBlockedBetween db me other = true
    · rw [if_pos hblk] at h; exact absurd h (by simp)
    · rw [if_neg hblk] at h
      by_cases hpriv : (!canMessageUser db me other) = true
      · rw [if_pos hpriv] at h; exact absurd h (by simp)
      · rw [if_neg hpriv] at h
        have hblk0 : isBlockedBetween db me other = false := by
          simpa using hblk
        have hpriv0 : (!canMessageUser db me other) = false := by
          simpa using hpriv
        cases hfind : (membershipsOf db me).find? (directMatch db other) with
        | some ms =>
          rw [hfind] at h
          simp only [] at h
          by_cases hdel : ms.isDeleted = true
          · rw [if_pos hdel] at h
            simp only [Except.ok.injEq, Prod.mk.injEq] at h
            obtain ⟨hdb1, hcid⟩ := h
            subst hcid
            subst hdb1
            unfold getOrCreateDirectConversation
            rw [if_neg hme]
            have hblk1 : isBlockedBetween (patchMember db ms.id
                (fun m => { m with isDeleted := false, lastReadAt := some now }))
                me other = false := hblk0
            rw [if_neg (by rw [hblk1]; exact Bool.false_ne_true)]
            have hpriv1 : (!canMessageUser (patchMember db ms.id
                (fun m => { m with isDeleted := false, lastReadAt := some now }))
                me other) = false := hpriv0
            rw [if_neg (by rw [hpriv1]; exact Bool.false_ne_true)]
            rw [find?_directMatch_patchMember db ms.id
              (fun m => { m with isDeleted := false, lastReadAt := some now })
              (fun m => ⟨rfl, rfl⟩) me other, hfind]
            simp only [Option.map_some']
            rw [show (ms.id == ms.id) = true from beq_self_eq_true ms.id]
            simp only [if_true]
            rfl
          · rw [if_neg hdel] at h
            simp only [Except.ok.injEq, Prod.mk.injEq] at h
            obtain ⟨hdb1, hcid⟩ := h
            subst hcid
            subst hdb1
            unfold getOrCreateDirectConversation
            rw [if_neg hme, if_neg (by rw [hblk0]; exact Bool.false_ne_true),
              if_neg (by rw [hpriv0]; exact Bool.false_ne_true), hfind]
            simp only []
            rw [if_neg hdel]
        | none =>
          rw [hfind] at h
          simp only [Except.ok.injEq, Prod.mk.injEq] at h
          obtain ⟨hdb1, hcid⟩ := h
          subst hcid
          have hdb1' : db1 = createdDirectDB db now me other := hdb1.symm
          subst hdb1'
          obtain ⟨hgc, hmo, hmold, hgcold⟩ := createdDirectDB_facts db now me other hfresh
          unfold getOrCreateDirectConversation
          rw [if_neg hme]
          have hblk1 : isBlockedBetween (createdDirectDB db now me other) me other =
              false := hblk0
          rw [if_neg (by rw [hblk1]; exact Bool.false_ne_true)]
          have hpriv1 : (!canMessageUser (createdDirectDB db now me other) me other) =
              false := hpriv0
          rw [if_neg (by rw [hpriv1]; exact Bool.false_ne_true)]
          have hne' : me ≠ other := by simpa using hme
          have hne_me_other : (other == me) = false := by
            simp only [beq_eq_false_iff_ne, ne_eq]
            exact fun hx => hne' hx.symm
          have hmem : membershipsOf (createdDirectDB db now me other) me =
              membershipsOf db me ++ [newDirectMemberMe db now me] := by
            show ((db.members ++ [newDirectMemberMe db now me]) ++
              [newDirectMemberOther db now other]).filter
                (fun (m : MemberRow) => m.userId == me) = _
            rw [List.filter_append, List.filter_append]
            have h1 : [newDirectMemberMe db now me].filter
                (fun (m : MemberRow) => m.userId == me) =
                [newDirectMemberMe db now me] := by
              simp [List.filter_cons, newDirectMemberMe]
            have h2 : [newDirectMemberOther db now other].filter
                (fun (m : MemberRow) => m.userId == me) = [] := by
              simp [List.filter_cons, newDirectMemberOther, hne_me_other]
            rw [h1, h2, List.append_nil]
            rfl
          rw [hmem, List.find?_append]
          have hpart1 : (membershipsOf db me).find?
              (directMatch (createdDirectDB db now me other) other) = none := by
            rw [List.find?_eq_none]
            intro ms hms
            have hmemdb : ms ∈ db.members := List.mem_of_mem_filter hms
            have hlt := hfresh.2 ms hmemdb
            have holdm : directMatch (createdDirectDB db now me other) other ms =
                directMatch db other ms := by
              unfold directMatch
              rw [hgcold ms.conversationId (by omega)]
              cases getConv db ms.conversationId with
              | none => rfl
              | some conv =>
                rw [hmold ms.conversationId (by omega)]
            rw [holdm]
            exact List.find?_eq_none.mp hfind ms hms
          rw [hpart1, Option.none_or]
          have hm1 : directMatch (createdDirectDB db now me other) other
              (newDirectMemberMe db now me) = true := by
            unfold directMatch
            rw [show (newDirectMemberMe db now me).conversationId = db.nextId from rfl]
            rw [hgc, hmo]
            simp [newDirectConv, newDirectMemberOther]
          simp only [List.find?, hm1]
          rfl

/-- Success inversion for `getOrCreateDirectConversation`: either an
existing direct conversation was reused (possibly restoring the caller's
hidden membership) or the fresh conversation plus exactly two membership
rows were inserted. -/
theorem getOrCreate_inversion (db : DB) (now me other : Nat) (db1 : DB) (cid : Nat)
    (h : getOrCreateDirectConversation db now me other = Except.ok (db1, cid)) :
    (∃ ms, (membershipsOf db me).find? (directMatch db other) = some ms ∧
      cid = ms.conversationId ∧
      (db1 = db ∨ db1 = patchMember db ms.id
        (fun m => { m with isDeleted := false, lastReadAt := some now })))
    ∨ ((membershipsOf db me).find? (directMatch db other) = none ∧
      cid = db.nextId ∧ db1 = createdDirectDB db now me other) := by
  unfold getOrCreateDirectConversation at h
  by_cases hme : (me == other) = true
  · rw [if_pos hme] at h; exact absurd h (by simp)
  · rw [if_neg hme] at h
    by_cases hblk : isBlockedBetween db me other = true
    · rw [if_pos hblk] at h; exact absurd h (by simp)
    · rw [if_neg hblk] at h
      by_cases hpriv : (!canMessageUser db me other) = true
      · rw [if_pos hpriv] at h; exact absurd h (by simp)
      · rw [if_neg hpriv] at h
        cases hfind : (membershipsOf db me).find? (directMatch db other) with
        | some ms =>
          rw [hfind] at h
          simp only [] at h
          by_cases hdel : ms.isDeleted = true
          · rw [if_pos hdel] at h
            simp only [Except.ok.injEq, Prod.mk.injEq] at h
            exact Or.inl ⟨ms, rfl, h.2.symm, Or.inr h.1.symm⟩
          · rw [if_neg hdel] at h
            simp only [Except.ok.injEq, Prod.mk.injEq] at h
            exact Or.inl ⟨ms, rfl, h.2.symm, Or.inl h.1.symm⟩
        | none =>
          rw [hfind] at h
          simp only [Except.ok.injEq, Prod.mk.injEq] at h
          exact Or.inr ⟨rfl, h.2.symm, h.1.symm⟩

/-- Find-or-create preserves the two-membership invariant. -/
theorem getOrCreate_preserves_directTwoInv (db : DB) (now me other : Nat)
    (db1 : DB) (cid : Nat) (hfresh : FreshIds db) (hinv : directTwoInv db)
    (h : getOrCreateDirectConversation db now me other = Except.ok (db1, cid)) :
    directTwoInv db1 := by
  rcases getOrCreate_inversion db now me other db1 cid h with
    ⟨ms, _, _, hdb | hdb⟩ | ⟨_, _, hdb⟩
  · rw [hdb]; exact hinv
  · subst hdb
    intro c hc hcg
    have hc' : c ∈ db.conversations := hc
    rw [membersOf_patchMember db ms.id
      (fun m => { m with isDeleted := false, lastReadAt := some now }) c.id
      (fun m => rfl), List.length_map]
    exact hinv c hc' hcg
  · subst hdb
    obtain ⟨hgc, hmo, hmold, hgcold⟩ := createdDirectDB_facts db now me other hfresh
    intro c hc hcg
    have hc' : c ∈ db.conversations ++ [newDirectConv db now me] := hc
    rcases List.mem_append.mp hc' with hold | hnew
    · have hlt := hfresh.1 c hold
      rw [hmold c.id (by omega)]
      exact hinv c hold hcg
    · have hceq : c = newDirectConv db now me := List.mem_singleton.mp hnew
      subst hceq
      rw [show (newDirectConv db now me).id = db.nextId from rfl, hmo]
      rfl

/-- One `addGroupMembers` step never changes another conversation's member
rows. -/
theorem addOneGroupMember_membersOf_len (now cid : Nat) (acc : DB) (u x : Nat)
    (hx : x ≠ cid) :
    (membersOf (addOneGroupMember now cid acc u) x).length =
      (membersOf acc x).length := by
  unfold addOneGroupMember
  cases he : memberByConvUser acc cid u with
  | some existing =>
    by_cases hdel : existing.isDeleted = true
    · simp only [hdel, if_true]
      rw [membersOf_patchMember acc existing.id
        (fun m => { m with isDeleted := false, joinedAt := now,
                           role := some (m.role.getD "member") }) x (fun m => rfl)]
      exact List.length_map _ _
    · simp [hdel]
  | none =>
    show ((acc.members ++ [_]).filter (fun (m : MemberRow) => m.conversationId == x)).length = _
    rw [List.filter_append]
    have hb : (cid == x) = false := by
      simp only [beq_eq_false_iff_ne, ne_eq]
      exact fun hq => hx hq.symm
    simp only [List.filter_cons, List.filter_nil, hb, Bool.false_eq_true, if_false,
      List.append_nil]
    rfl

/-- The `addGroupMembers` loop never changes another conversation's member
count. -/
theorem foldl_addOne_membersOf_len (now cid : Nat) :
    ∀ (l : List Nat) (acc : DB) (x : Nat), x ≠ cid →
      (membersOf (l.foldl (addOneGroupMember now cid) acc) x).length =
        (membersOf acc x).length := by
  intro l
  induction l with
  | nil => intro acc x _; rfl
  | cons y ys ih =>
    intro acc x hx
    rw [List.foldl_cons, ih (addOneGroupMember now cid acc y) x hx,
      addOneGroupMember_membersOf_len now cid acc y x hx]

/-- The `addGroupMembers` loop never touches the conversations table. -/
theorem foldl_addOne_conversations (now cid : Nat) :
    ∀ (l : List Nat) (acc : DB),
      (l.foldl (addOneGroupMember now cid) acc).conversations = acc.conversations := by
  intro l
  induction l with
  | nil => intro acc; rfl
  | cons y ys ih =>
    intro acc
    rw [List.foldl_cons, ih]
    unfold addOneGroupMember
    cases he : memberByConvUser acc cid y with
    | some existing =>
      by_cases hdel : existing.isDeleted = true
      · simp [hdel]
        rfl
      · simp [hdel]
    | none => rfl

/-- `addGroupMembers` preserves the two-membership invariant (it only ever
inserts rows into a conversation it has checked to be a group). -/
theorem addGroupMembers_preserves_directTwoInv (db : DB) (now me cid : Nat)
    (ids : List Nat) (db' : DB)
    (hnodup : (db.conversations.map (fun c => c.id)).Nodup)
    (hinv : directTwoInv db)
    (h : addGroupMembers db now me cid ids = Except.ok db') :
    directTwoInv db' := by
  unfold addGroupMembers at h
  cases hmy : memberByConvUser db cid me with
  | none => rw [hmy] at h; exact absurd h (by simp)
  | some my =>
    rw [hmy] at h
    simp only [] at h
    by_cases hdel : my.isDeleted = true
    · rw [if_pos hdel] at h; exact absurd h (by simp)
    · rw [if_neg hdel] at h
      by_cases hrole : (!(my.role.getD "member" == "owner" ||
          my.role.getD "member" == "admin")) = true
      · rw [if_pos hrole] at h; exact absurd h (by simp)
      · rw [if_neg hrole] at h
        cases hcv : getConv db cid with
        | none => rw [hcv] at h; simp only [] at h; exact absurd h (by simp)
        | some conversation =>
          rw [hcv] at h
          simp only [] at h
          by_cases hgrp : (!conversation.isGroup) = true
          · rw [if_pos hgrp] at h; exact absurd h (by simp)
          · rw [if_neg hgrp] at h
            simp only [Except.ok.injEq] at h
            subst h
            intro c hc hcg
            rw [foldl_addOne_conversations now cid _ db] at hc
            have hgrp' : conversation.isGroup = true := by
              simpa using hgrp
            have hcne : c.id ≠ cid := by
              intro he
              have hconvmem : conversation ∈ db.conversations :=
                List.mem_of_find?_eq_some hcv
              have hcidconv : conversation.id = cid := by
                have := List.find?_some hcv
                simpa using this
              have hceq : c = conversation :=
                List.inj_on_of_nodup_map hnodup hc hconvmem (by rw [he, hcidconv])
              rw [hceq, hgrp'] at hcg
              exact absurd hcg (by decide)
            rw [foldl_addOne_membersOf_len now cid _ db c.id hcne]
            exact hinv c hc hcg

/-- `removeGroupMember` only toggles flags: the conversations table and
every conversation's membership-row count are untouched. -/
theorem removeGroupMember_shape (db : DB) (now me cid target : Nat) (db' : DB)
    (h : removeGroupMember db now me cid target = Except.ok db') :
    db'.conversations = db.conversations ∧
    (∀ x, (membersOf db' x).length = (membersOf db x).length) := by
  unfold removeGroupMember at h
  cases hmy : memberByConvUser db cid me with
  | none => rw [hmy] at h; exact absurd h (by simp)
  | some my =>
    rw [hmy] at h
    simp only [] at h
    by_cases hdel : my.isDeleted = true
    · rw [if_pos hdel] at h; exact absurd h (by simp)
    · rw [if_neg hdel] at h
      cases htm : memberByConvUser db cid target with
      | none => rw [htm] at h; simp only [] at h; exact absurd h (by simp)
      | some tm =>
        rw [htm] at h
        simp only [] at h
        by_cases htdel : tm.isDeleted = true
        · rw [if_pos htdel] at h; exact absurd h (by simp)
        · rw [if_neg htdel] at h
          by_cases hr1 : (my.role.getD "member" == "member") = true
          · rw [if_pos hr1] at h; exact absurd h (by simp)
          · rw [if_neg hr1] at h
            by_cases hr2 : (my.role.getD "member" == "admin" &&
                tm.role.getD "member" != "member") = true
            · rw [if_pos hr2] at h; exact absurd h (by simp)
            · rw [if_neg hr2] at h
              simp only [Except.ok.injEq] at h
              subst h
              refine ⟨rfl, fun x => ?_⟩
              rw [membersOf_patchMember db tm.id
                (fun m => { m with isDeleted := true, lastReadAt := some now }) x
                (fun m => rfl)]
              exact List.length_map _ _

/-- The member-insertion loop of group creation never touches another
conversation's member rows. -/
theorem foldl_insertGroupMemberRow_membersOf (now cid : Nat) :
    ∀ (l : List Nat) (acc : DB) (x : Nat), x ≠ cid →
      membersOf (l.foldl (insertGroupMemberRow now cid) acc) x = membersOf acc x := by
  intro l
  induction l with
  | nil => intro acc x _; rfl
  | cons y ys ih =>
    intro acc x hx
    rw [List.foldl_cons, ih (insertGroupMemberRow now cid acc y) x hx]
    show ((acc.members ++ [_]).filter (fun (m : MemberRow) => m.conversationId == x)) = _
    rw [List.filter_append]
    have hb : (cid == x) = false := by
      simp only [beq_eq_false_iff_ne, ne_eq]
      exact fun hq => hx hq.symm
    simp only [List.filter_cons, List.filter_nil, hb, Bool.false_eq_true, if_false,
      List.append_nil]
    rfl

/-- The member-insertion loop of group creation never touches the
conversations table. -/
theorem foldl_insertGroupMemberRow_conversations (now cid : Nat) :
    ∀ (l : List Nat) (acc : DB),
      (l.foldl (insertGroupMemberRow now cid) acc).conversations =
        acc.conversations := by
  intro l
  induction l with
  | nil => intro acc; rfl
  | cons y ys ih =>
    intro acc
    rw [List.foldl_cons, ih]
    rfl

/-- `createGroupConversation` preserves the two-membership invariant of
direct conversations: all its inserted member rows reference the fresh
group conversation. -/
theorem createGroup_preserves_directTwoInv (db : DB) (now me : Nat) (name : String)
    (ids : List Nat) (db' : DB) (cid : Nat) (hfresh : FreshIds db)
    (hinv : directTwoInv db)
    (h : createGroupConversation db now me name ids = Except.ok (db', cid)) :
    directTwoInv db' := by
  unfold createGroupConversation at h
  by_cases hname : (strTrim name == "") = true
  · rw [if_pos hname] at h; exact absurd h (by simp)
  · rw [if_neg hname] at h
    by_cases hlen : ((firstDedup ids).filter (fun uid => uid ≠ me)).length < 2
    · rw [if_pos hlen] at h; exact absurd h (by simp)
    · rw [if_neg hlen] at h
      simp only [Except.ok.injEq, Prod.mk.injEq] at h
      obtain ⟨hdb, hcid⟩ := h
      subst hdb
      intro c hc hcg
      rw [foldl_insertGroupMemberRow_conversations now db.nextId _ _] at hc
      have hc2 : c ∈ db.conversations ++
          [{ id := db.nextId, isGroup := true, name := some (strTrim name),
             createdBy := me, updatedAt := now,
             lastMessageText := none, lastMessageAt := none }] := hc
      rcases List.mem_append.mp hc2 with hold | hnew
      · have hlt := hfresh.1 c hold
        rw [foldl_insertGroupMemberRow_membersOf now db.nextId _ _ c.id (by omega)]
        have hmm : membersOf
            { db with
              conversations := db.conversations ++
                [{ id := db.nextId, isGroup := true, name := some (strTrim name),
                   createdBy := me, updatedAt := now,
                   lastMessageText := none, lastMessageAt := none }]
              members := db.members ++
                [{ id := db.nextId + 1, conversationId := db.nextId, userId := me,
                   joinedAt := now, role := some "owner", lastReadAt := some now,
                   isDeleted := false }]
              nextId := db.nextId + 1 + 1 } c.id = membersOf db c.id := by
          show ((db.members ++ [_]).filter (fun (m : MemberRow) => m.conversationId == c.id)) = _
          rw [List.filter_append]
          have hb : (db.nextId == c.id) = false := by simp; omega
          simp only [List.filter_cons, List.filter_nil, hb, Bool.false_eq_true,
            if_false, List.append_nil]
          rfl
        rw [hmm]
        exact hinv c hold hcg
      · have hceq := List.mem_singleton.mp hnew
        rw [hceq] at hcg
        exact absurd hcg (by simp)

/-- C3: under a well-formed id allocator, find-or-create is idempotent —
a second call for the same pair returns the same conversation and leaves
the database untouched, so a duplicate is never created — and the
two-membership invariant of direct conversations is established by the
creation branch and preserved by find-or-create, `addGroupMembers`
(which only inserts rows into a checked group conversation),
`removeGroupMember` (which only toggles flags and preserves every
conversation's membership-row count), and `createGroupConversation`. -/
theorem direct_conversation_invariants :
    (∀ db now now2 me other db1 cid, FreshIds db →
        getOrCreateDirectConversation db now me other = Except.ok (db1, cid) →
        getOrCreateDirectConversation db1 now2 me other = Except.ok (db1, cid))
    ∧ (∀ db now me other db1 cid, FreshIds db → directTwoInv db →
        getOrCreateDirectConversation db now me other = Except.ok (db1, cid) →
        directTwoInv db1)
    ∧ (∀ db now me cid ids db',
        (db.conversations.map (fun c => c.id)).Nodup → directTwoInv db →
        addGroupMembers db now me cid ids = Except.ok db' → directTwoInv db')
    ∧ (∀ db now me cid target db',
        removeGroupMember db now me cid target = Except.ok db' →
        db'.conversations = db.conversations ∧
        (∀ x, (membersOf db' x).length = (membersOf db x).length) ∧
        (directTwoInv db → directTwoInv db'))
    ∧ (∀ db now me name ids db' cid, FreshIds db → directTwoInv db →
        createGroupConversation db now me name ids = Except.ok (db', cid) →
        directTwoInv db') := by
  refine ⟨fun db now now2 me other db1 cid hf h =>
      getOrCreate_idempotent db now now2 me other db1 cid hf h,
    fun db now me other db1 cid hf hi h =>
      getOrCreate_preserves_directTwoInv db now me other db1 cid hf hi h,
    fun db now me cid ids db' hn hi h =>
      addGroupMembers_preserves_directTwoInv db now me cid ids db' hn hi h,
    fun db now me cid target db' h => ?_,
    fun db now me name ids db' cid hf hi h =>
      createGroup_preserves_directTwoInv db now me name ids db' cid hf hi h⟩
  obtain ⟨hconv, hlen⟩ := removeGroupMember_shape db now me cid target db' h
  refine ⟨hconv, hlen, fun hi c hc hcg => ?_⟩
  rw [hconv] at hc
  rw [hlen c.id]
  exact hi c hc hcg

/-- Witness for C3: the first call creates direct conversation 5 with its
two membership rows; the second call returns the same conversation and
changes nothing, and the created state satisfies the invariant. -/
theorem direct_conversation_invariants_witness :
    getOrCreateDirectConversation c3DB 100 1 2 =
      Except.ok (createdDirectDB c3DB 100 1 2, 5) ∧
    getOrCreateDirectConversation (createdDirectDB c3DB 100 1 2) 200 1 2 =
      Except.ok (createdDirectDB c3DB 100 1 2, 5) ∧
    directTwoInv (createdDirectDB c3DB 100 1 2) := by
  have hf : FreshIds c3DB :=
    ⟨fun c hc => absurd hc (List.not_mem_nil c),
     fun m hm => absurd hm (List.not_mem_nil m)⟩
  have hi : directTwoInv c3DB := fun c hc => absurd hc (List.not_mem_nil c)
  have h1 : getOrCreateDirectConversation c3DB 100 1 2 =
      Except.ok (createdDirectDB c3DB 100 1 2, 5) := rfl
  exact ⟨h1, direct_conversation_invariants.1 c3DB 100 200 1 2 _ 5 hf h1,
    direct_conversation_invariants.2.1 c3DB 100 1 2 _ 5 hf hi h1⟩

/-! ## C5: pagination -/

/-- Stable insertion only reorders. -/
theorem insertByCreatedAt_perm (m : MessageRow) (l : List MessageRow) :
    List.Perm (insertByCreatedAt m l) (m :: l) := by
  induction l with
  | nil => exact List.Perm.refl _
  | cons x xs ih =>
    unfold insertByCreatedAt
    by_cases h : m.createdAt ≤ x.createdAt
    · rw [if_pos h]
    · rw [if_neg h]
      exact (ih.cons x).trans (List.Perm.swap m x xs)

/-- The index-order sort only reorders. -/
theorem sortByCreatedAt_perm (l : List MessageRow) :
    List.Perm (sortByCreatedAt l) l := by
  induction l with
  | nil => exact List.Perm.refl _
  | cons x xs ih =>
    show List.Perm (insertByCreatedAt x (sortByCreatedAt xs)) (x :: xs)
    exact (insertByCreatedAt_perm x _).trans (ih.cons x)

/-- Stable insertion keeps the list ascending by `createdAt`. -/
theorem insertByCreatedAt_sorted (m : MessageRow) (l : List MessageRow)
    (h : l.Pairwise (fun a b => a.createdAt ≤ b.createdAt)) :
    (insertByCreatedAt m l).Pairwise (fun a b => a.createdAt ≤ b.createdAt) := by
  induction l with
  | nil => simp [insertByCreatedAt]
  | cons x xs ih =>
    obtain ⟨hx, hxs⟩ := List.pairwise_cons.mp h
    unfold insertByCreatedAt
    by_cases hle : m.createdAt ≤ x.createdAt
    · rw [if_pos hle]
      refine List.pairwise_cons.mpr ⟨?_, h⟩
      intro b hb
      rcases List.mem_cons.mp hb with hbx | hbxs
      · rw [hbx]; exact hle
      · exact le_trans hle (hx b hbxs)
    · rw [if_neg hle]
      have hm : x.createdAt ≤ m.createdAt := le_of_not_le hle
      refine List.pairwise_cons.mpr ⟨?_, ih hxs⟩
      intro b hb
      have hb' : b ∈ m :: xs := (insertByCreatedAt_perm m xs).mem_iff.mp hb
      rcases List.mem_cons.mp hb' with hbm | hbxs
      · rw [hbm]; exact hm
      · exact hx b hbxs

/-- The index-order sort is ascending by `createdAt`. -/
theorem sortByCreatedAt_sorted (l : List MessageRow) :
    (sortByCreatedAt l).Pairwise (fun a b => a.createdAt ≤ b.createdAt) := by
  induction l with
  | nil => exact List.Pairwise.nil
  | cons x xs ih =>
    exact insertByCreatedAt_sorted x (sortByCreatedAt xs) ih

/-- The conversation's index order is ascending by `createdAt`. -/
theorem convMessagesAsc_sorted (db : DB) (cid : Nat) :
    (convMessagesAsc db cid).Pairwise (fun a b => a.createdAt ≤ b.createdAt) :=
  sortByCreatedAt_sorted _

/-- The conversation's index order lists exactly the conversation's
message rows. -/
theorem convMessagesAsc_perm (db : DB) (cid : Nat) :
    List.Perm (convMessagesAsc db cid)
      (db.messages.filter (fun m => m.conversationId == cid)) :=
  sortByCreatedAt_perm _

/-- With pairwise-distinct `createdAt` values, the index order is strictly
increasing. -/
theorem convMessagesAsc_strict (db : DB) (cid : Nat)
    (hn : ((db.messages.filter (fun m => m.conversationId == cid)).map
      (fun m => m.createdAt)).Nodup) :
    (convMessagesAsc db cid).Pairwise (fun a b => a.createdAt < b.createdAt) := by
  have hperm := (convMessagesAsc_perm db cid).map (fun m => m.createdAt)
  have hn' : ((convMessagesAsc db cid).map (fun m => m.createdAt)).Nodup :=
    hperm.nodup_iff.mpr hn
  have hne : (convMessagesAsc db cid).Pairwise
      (fun a b => a.createdAt ≠ b.createdAt) := List.pairwise_map.mp hn'
  exact ((convMessagesAsc_sorted db cid).and hne).imp
    (fun h => lt_of_le_of_ne h.1 h.2)

/-- The page is the tail chunk of the candidate list. -/
theorem page_eq_drop {α : Type} (l : List α) (t : Nat) :
    (l.reverse.take t).reverse = l.drop (l.length - t) := by
  rw [List.take_reverse, List.reverse_reverse]

/-- `any` succeeds exactly when the filter is non-empty. -/
theorem any_iff_filter_ne_nil {α : Type} (l : List α) (p : α → Bool) :
    l.any p = true ↔ l.filter p ≠ [] := by
  rw [List.any_eq_true]
  constructor
  · intro ⟨x, hx, hpx⟩ hnil
    have : x ∈ l.filter p := List.mem_filter.mpr ⟨hx, hpx⟩
    rw [hnil] at this
    exact absurd this (List.not_mem_nil x)
  · intro hne
    cases hf : l.filter p with
    | nil => exact absurd hf hne
    | cons y ys =>
      have hy : y ∈ l.filter p := by rw [hf]; exact List.mem_cons_self y ys
      exact ⟨y, List.mem_of_mem_filter hy, List.of_mem_filter hy⟩

/-- The clamped page size is at least one. -/
theorem takeCountOf_pos (limit : Option Nat) : 1 ≤ takeCountOf limit := by
  unfold takeCountOf
  omega

/-- Core of the pagination round trip: with strictly increasing
`createdAt` values, the "load older" loop started below any bound
returns exactly the candidate rows below that bound, in order. -/
theorem gather_eq (db : DB) (cid : Nat) (limit : Option Nat)
    (hstrict : (convMessagesAsc db cid).Pairwise
      (fun a b => a.createdAt < b.createdAt)) :
    ∀ (fuel : Nat) (before : Option Nat),
      (pageCandidates db cid before).length ≤ fuel →
      gatherPages db cid limit fuel before = pageCandidates db cid before := by
  intro fuel
  induction fuel with
  | zero =>
    intro before hle
    have h0 : pageCandidates db cid before = [] :=
      List.length_eq_zero.mp (Nat.le_zero.mp hle)
    show ([] : List MessageRow) = _
    rw [h0]
  | succ fuel ih =>
    intro before hle
    have hcands_eq : ∀ b : Nat, (b != 0) = true →
        pageCandidates db cid (some b) =
          (convMessagesAsc db cid).filter (fun m => m.createdAt < b) := by
      intro b hb
      unfold pageCandidates
      simp only [hb, if_true]
    have hcands_eq0 : ∀ b : Nat, (b != 0) = false →
        pageCandidates db cid (some b) = convMessagesAsc db cid := by
      intro b hb
      unfold pageCandidates
      simp only [hb, Bool.false_eq_true, if_false]
    have hcands_sub : List.Sublist (pageCandidates db cid before)
        (convMessagesAsc db cid) := by
      cases before with
      | none => exact List.Sublist.refl _
      | some b =>
        by_cases hb : (b != 0) = true
        · rw [hcands_eq b hb]; exact List.filter_sublist _
        · have hb' : (b != 0) = false := by
            cases hq : (b != 0) with
            | true => exact absurd hq hb
            | false => rfl
          rw [hcands_eq0 b hb']
    have hcands_strict := hstrict.sublist hcands_sub
    have ht1 : 1 ≤ takeCountOf limit := takeCountOf_pos limit
    have hgather : gatherPages db cid limit (fuel + 1) before =
        (if (listPage db cid before limit).hasMore then
          gatherPages db cid limit fuel (listPage db cid before limit).oldestCreatedAt ++
            (listPage db cid before limit).page
        else (listPage db cid before limit).page) := rfl
    have hpage_def : (listPage db cid before limit).page =
        (pageCandidates db cid before).drop
          ((pageCandidates db cid before).length - takeCountOf limit) := by
      show ((pageCandidates db cid before).reverse.take (takeCountOf limit)).reverse = _
      exact page_eq_drop _ _
    have holdest_def : (listPage db cid before limit).oldestCreatedAt =
        ((listPage db cid before limit).page.head?).map (fun m => m.createdAt) := rfl
    have hmore_def : (listPage db cid before limit).hasMore =
        (match (listPage db cid before limit).oldestCreatedAt with
         | some o => (convMessagesAsc db cid).any (fun m => m.createdAt < o)
         | none => false) := rfl
    cases hpg : (listPage db cid before limit).page with
    | nil =>
      have hcn : pageCandidates db cid before = [] := by
        rw [hpage_def] at hpg
        have hdl := List.drop_eq_nil_iff.mp hpg
        have := List.length_eq_zero.mp (by omega : (pageCandidates db cid before).length = 0)
        exact this
      have hom : (listPage db cid before limit).oldestCreatedAt = none := by
        rw [holdest_def, hpg]; rfl
      have hmf : (listPage db cid before limit).hasMore = false := by
        rw [hmore_def, hom]
      rw [hgather, hmf]
      simp only [Bool.false_eq_true, if_false]
      rw [hpg, hcn]
    | cons p ps =>
      have hsplit : (pageCandidates db cid before).take
          ((pageCandidates db cid before).length - takeCountOf limit) ++ (p :: ps) =
          pageCandidates db cid before := by
        rw [← hpg, hpage_def]
        exact List.take_append_drop _ _
      have hoP : (listPage db cid before limit).oldestCreatedAt =
          some p.createdAt := by
        rw [holdest_def, hpg]; rfl
      have hmore2 : (listPage db cid before limit).hasMore =
          (convMessagesAsc db cid).any (fun m => m.createdAt < p.createdAt) := by
        rw [hmore_def, hoP]
      have hpc : p ∈ pageCandidates db cid before := by
        rw [← hsplit]
        exact List.mem_append_right _ (List.mem_cons_self p ps)
      -- the rows strictly older than the page head are exactly the taken chunk
      have h1 : (pageCandidates db cid before).filter
          (fun m => m.createdAt < p.createdAt) =
          (pageCandidates db cid before).take
            ((pageCandidates db cid before).length - takeCountOf limit) := by
        conv_lhs => rw [← hsplit]
        rw [List.filter_append]
        have hpair := hcands_strict
        rw [← hsplit] at hpair
        obtain ⟨hp1, hp2, hcross⟩ := List.pairwise_append.mp hpair
        have hA : ((pageCandidates db cid before).take
            ((pageCandidates db cid before).length - takeCountOf limit)).filter
              (fun m => m.createdAt < p.createdAt) =
            (pageCandidates db cid before).take
              ((pageCandidates db cid before).length - takeCountOf limit) :=
          List.filter_eq_self.mpr (fun x hx => by
            simpa using hcross x hx p (List.mem_cons_self p ps))
        have hB : (p :: ps).filter (fun m => m.createdAt < p.createdAt) = [] := by
          rw [List.filter_eq_nil_iff]
          intro y hy
          rcases List.mem_cons.mp hy with hyp | hyps
          · rw [hyp]
            intro hcon
            simp only [decide_eq_true_eq] at hcon
            omega
          · have hlt := (List.pairwise_cons.mp hp2).1 y hyps
            intro hcon
            simp only [decide_eq_true_eq] at hcon
            omega
        rw [hA, hB, List.append_nil]
      have hfilterA : (convMessagesAsc db cid).filter
          (fun m => m.createdAt < p.createdAt) =
          (pageCandidates db cid before).take
            ((pageCandidates db cid before).length - takeCountOf limit) := by
        rw [← h1]
        cases before with
        | none => rfl
        | some b =>
          by_cases hb : (b != 0) = true
          · rw [hcands_eq b hb]
            rw [List.filter_filter]
            apply List.filter_congr
            intro x _
            have hpb : p.createdAt < b := by
              have hpcf : p ∈ (convMessagesAsc db cid).filter
                  (fun m => m.createdAt < b) := by
                have hh := hpc
                rw [hcands_eq b hb] at hh
                exact hh
              have := List.of_mem_filter hpcf
              simpa using this
            by_cases hx : x.createdAt < p.createdAt
            · have hxb : x.createdAt < b := by omega
              simp [hx, hxb]
            · simp [hx]
          · have hb' : (b != 0) = false := by
              cases hq : (b != 0) with
              | true => exact absurd hq hb
              | false => rfl
            rw [hcands_eq0 b hb']
      by_cases hm : (convMessagesAsc db cid).any
          (fun m => m.createdAt < p.createdAt) = true
      · have hne0 : p.createdAt ≠ 0 := by
          obtain ⟨x, _, hx⟩ := List.any_eq_true.mp hm
          simp only [decide_eq_true_eq] at hx
          omega
        have hcands2 : pageCandidates db cid (some p.createdAt) =
            (pageCandidates db cid before).take
              ((pageCandidates db cid before).length - takeCountOf limit) := by
          rw [hcands_eq p.createdAt (by simpa using hne0)]
          exact hfilterA
        have hn1 : 1 ≤ (pageCandidates db cid before).length := by
          rw [← hsplit]
          rw [List.length_append]
          simp
          omega
        have hlen2 : (pageCandidates db cid (some p.createdAt)).length ≤ fuel := by
          rw [hcands2, List.length_take]
          omega
        have hrec := ih (some p.createdAt) hlen2
        rw [hgather]
        rw [hmore2]
        rw [if_pos hm]
        rw [hoP, hrec, hcands2, hpg]
        exact hsplit
      · have hmf : (listPage db cid before limit).hasMore = false := by
          rw [hmore2]
          simpa using hm
        rw [hgather, hmf]
        simp only [Bool.false_eq_true, if_false]
        rw [hpg]
        have htake0 : (pageCandidates db cid before).take
            ((pageCandidates db cid before).length - takeCountOf limit) = [] := by
          by_contra hne
          have : (convMessagesAsc db cid).filter
              (fun m => m.createdAt < p.createdAt) ≠ [] := by
            rw [hfilterA]; exact hne
          exact hm ((any_iff_filter_ne_nil _ _).mpr this)
        rw [← hsplit, htake0, List.nil_append]

/-- The clamped page size never exceeds one hundred. -/
theorem takeCountOf_le (limit : Option Nat) : takeCountOf limit ≤ 100 := by
  unfold takeCountOf
  omega

/-- A requested limit already inside the clamp range is used as-is. -/
theorem takeCountOf_id (n : Nat) (h1 : 1 ≤ n) (h2 : n ≤ 100) :
    takeCountOf (some n) = n := by
  unfold takeCountOf
  simp only [Option.getD_some]
  omega

/-- The candidate list is always a sublist of the conversation's index
order. -/
theorem pageCandidates_sublist (db : DB) (cid : Nat) (before : Option Nat) :
    List.Sublist (pageCandidates db cid before) (convMessagesAsc db cid) := by
  cases before with
  | none => exact List.Sublist.refl _
  | some b =>
    cases hq : (b != 0) with
    | true =>
      have he : pageCandidates db cid (some b) =
          (convMessagesAsc db cid).filter (fun m => m.createdAt < b) := by
        unfold pageCandidates
        simp only [hq, if_true]
      rw [he]
      exact List.filter_sublist _
    | false =>
      have he : pageCandidates db cid (some b) = convMessagesAsc db cid := by
        unfold pageCandidates
        simp only [hq, Bool.false_eq_true, if_false]
      rw [he]

/-- The returned page is the tail chunk of the candidate list. -/
theorem listPage_page_eq (db : DB) (cid : Nat) (before limit : Option Nat) :
    (listPage db cid before limit).page =
      (pageCandidates db cid before).drop
        ((pageCandidates db cid before).length - takeCountOf limit) := by
  show ((pageCandidates db cid before).reverse.take (takeCountOf limit)).reverse = _
  exact page_eq_drop _ _

/-- C5: counterexample — with two non-deleted messages of conversation 1
sharing `createdAt = 5` and a requested page size of 1, the first page
returns only the later row and reports `hasMore = false` (no row is
*strictly* older than the oldest returned timestamp), so the concatenation
of all "older" pages is `[c5Msg2]` and the other non-deleted message is
never delivered — refuting the claimed round trip. -/
theorem pagination_drops_tied_message :
    (c5DB.messages.filter (fun m => m.conversationId == 1)).length = 2 ∧
    c5DB.messages.all (fun m => !m.deleted) = true ∧
    (listPage c5DB 1 none (some 1)).hasMore = false ∧
    gatherPages c5DB 1 (some 1) 2 none = [c5Msg2] ∧
    c5Msg1 ∉ gatherPages c5DB 1 (some 1) 2 none := by
  refine ⟨rfl, rfl, rfl, rfl, ?_⟩
  decide

/-- C5 (amended): `messages.list` clamps the requested limit to `[1, 100]`
with default 40; each page is in ascending `createdAt` order; `hasMore` is
true exactly when some message of the conversation is strictly older than
the oldest returned timestamp; and — provided the conversation's
`createdAt` values are pairwise distinct — concatenating all "older" pages
from the newest page until `hasMore = false` yields every message row of
the conversation (in particular every non-deleted one) exactly once, in
ascending `createdAt` order, with no duplicates. -/
theorem pagination_round_trip_amended (db : DB) (cid : Nat) (limit : Option Nat)
    (fuel : Nat)
    (hn : ((db.messages.filter (fun m => m.conversationId == cid)).map
      (fun m => m.createdAt)).Nodup)
    (hfuel : (db.messages.filter (fun m => m.conversationId == cid)).length ≤ fuel) :
    (takeCountOf none = 40 ∧
      (∀ n, 1 ≤ n → n ≤ 100 → takeCountOf (some n) = n) ∧
      (∀ l, 1 ≤ takeCountOf l ∧ takeCountOf l ≤ 100)) ∧
    (∀ before, (listPage db cid before limit).page.Pairwise
      (fun a b => a.createdAt < b.createdAt)) ∧
    (∀ before, (listPage db cid before limit).hasMore = true ↔
      (∃ o, (listPage db cid before limit).oldestCreatedAt = some o ∧
        ∃ m ∈ db.messages, m.conversationId = cid ∧ m.createdAt < o)) ∧
    List.Perm (gatherPages db cid limit fuel none)
      (db.messages.filter (fun m => m.conversationId == cid)) ∧
    (gatherPages db cid limit fuel none).Pairwise
      (fun a b => a.createdAt < b.createdAt) ∧
    (∀ m ∈ db.messages, m.conversationId = cid → m.deleted = false →
      m ∈ gatherPages db cid limit fuel none) ∧
    (gatherPages db cid limit fuel none).Nodup := by
  have hstrict := convMessagesAsc_strict db cid hn
  have hmem_asc : ∀ m : MessageRow, m ∈ convMessagesAsc db cid ↔
      (m ∈ db.messages ∧ m.conversationId = cid) := by
    intro m
    rw [(convMessagesAsc_perm db cid).mem_iff, List.mem_filter]
    constructor
    · intro ⟨h1, h2⟩
      exact ⟨h1, by simpa using h2⟩
    · intro ⟨h1, h2⟩
      exact ⟨h1, by simpa using h2⟩
  have hlen : (pageCandidates db cid none).length ≤ fuel := by
    show (convMessagesAsc db cid).length ≤ fuel
    rw [(convMessagesAsc_perm db cid).length_eq]
    exact hfuel
  have hg : gatherPages db cid limit fuel none = convMessagesAsc db cid :=
    gather_eq db cid limit hstrict fuel none hlen
  refine ⟨⟨by decide, takeCountOf_id, fun l => ⟨takeCountOf_pos l, takeCountOf_le l⟩⟩,
    ?_, ?_, ?_, ?_, ?_, ?_⟩
  · intro before
    rw [listPage_page_eq]
    exact (hstrict.sublist (pageCandidates_sublist db cid before)).sublist
      (List.drop_sublist _ _)
  · intro before
    have hmore_def : (listPage db cid before limit).hasMore =
        (match (listPage db cid before limit).oldestCreatedAt with
         | some o => (convMessagesAsc db cid).any (fun m => m.createdAt < o)
         | none => false) := rfl
    cases ho : (listPage db cid before limit).oldestCreatedAt with
    | none =>
      rw [hmore_def, ho]
      simp only []
      constructor
      · intro h
        exact absurd h (by simp)
      · intro ⟨o, hoo, _⟩
        exact Option.noConfusion hoo
    | some o =>
      rw [hmore_def, ho]
      simp only []
      rw [List.any_eq_true]
      constructor
      · intro ⟨m, hm, hlt⟩
        refine ⟨o, rfl, m, ((hmem_asc m).mp hm).1, ((hmem_asc m).mp hm).2,
          by simpa using hlt⟩
      · intro ⟨o', hoo, m, hm, hcid, hlt⟩
        have ho' : o' = o := by
          injection hoo with h
          exact h.symm
        exact ⟨m, (hmem_asc m).mpr ⟨hm, hcid⟩, by simp [ho' ▸ hlt]⟩
  · rw [hg]
    exact convMessagesAsc_perm db cid
  · rw [hg]
    exact hstrict
  · intro m hm hcid _
    rw [hg]
    exact (hmem_asc m).mpr ⟨hm, hcid⟩
  · rw [hg]
    exact hstrict.imp (fun h heq => by rw [heq] at h; exact lt_irrefl _ h)

/-- Witness for the amended pagination claim, on the collision-free
database: the hypotheses hold at `c5DB2` with limit 1 and fuel 2, and the
gathered pages are a permutation of conversation 1's message rows. -/
theorem pagination_round_trip_amended_witness :
    ((c5DB2.messages.filter (fun m => m.conversationId == 1)).map
      (fun m => m.createdAt)).Nodup ∧
    (c5DB2.messages.filter (fun m => m.conversationId == 1)).length ≤ 2 ∧
    List.Perm (gatherPages c5DB2 1 (some 1) 2 none)
      (c5DB2.messages.filter (fun m => m.conversationId == 1)) :=
  ⟨by decide, by decide,
    (pagination_round_trip_amended c5DB2 1 (some 1) 2 (by decide)
      (by decide)).2.2.2.1⟩

end Chat
